import Mathlib

/-!
Verification of the drfold2 MCP repository's background job subsystem and its
helper scripts.

The job manager itself (imported by `src/server.py` as `jobs.manager`) is not
part of the source tree; following the spec (sections 2 through 8), it is
modelled here as a pure state machine over a `JobStore`.  Definitions whose doc
comment starts with "Modelled from the spec:" come from the spec's words; every
other definition is translated from the Python source files.
-/

set_option maxHeartbeats 1000000

/-- Job lifecycle states; spec section 3, `state` field of JobRecord. -/
inductive JobState where
  | pending
  | running
  | completed
  | failed
  | cancelled
  deriving DecidableEq, Repr

/-- Terminal states per the spec glossary: completed, failed, cancelled. -/
def JobState.isTerminal : JobState → Bool
  | .completed => true
  | .failed => true
  | .cancelled => true
  | _ => false

/-- Modelled from the spec: the JobRecord data model of spec section 3
(`jobs/manager.py` is absent from the source tree).  The `result` payload is
abstracted as a string and the log buffer as a list of lines. -/
structure JobRecord where
  id : Nat
  name : String
  program : String
  arguments : List String
  workingDirectory : String
  state : JobState
  submittedAt : Nat
  startedAt : Option Nat
  finishedAt : Option Nat
  exitCode : Option Int
  result : Option String
  errorMessage : Option String
  log : List String
  deriving DecidableEq, Repr

/-- Modelled from the spec: the JobStore plus the worker-pool capacity counter
and the identifier allocator of the JobManager (spec sections 2 and 4.4).
`jobs` is kept in submission order; `clock` is a logical timestamp source. -/
structure JobStore where
  capacity : Nat
  jobs : List JobRecord
  nextId : Nat
  clock : Nat
  deriving DecidableEq, Repr

/-- Lookup of a job record by identifier in the store (first match). -/
def findJob (s : JobStore) (id : Nat) : Option JobRecord :=
  s.jobs.find? (fun j => j.id == id)

/-- Number of records in a given state. -/
def stateCount (st : JobState) (l : List JobRecord) : Nat :=
  l.countP (fun j => j.state == st)

def runningCount (l : List JobRecord) : Nat := stateCount .running l

def pendingCount (l : List JobRecord) : Nat := stateCount .pending l

def nonTerminalCount (l : List JobRecord) : Nat :=
  l.countP (fun j => j.state.isTerminal == false)

/-- Modelled from the spec: the `pending → running` transition applied when the
dispatcher admits a job into a worker slot (spec section 4.3); sets
`startedAt`. -/
def startJob (t : Nat) (j : JobRecord) : JobRecord :=
  { j with state := .running, startedAt := some t }

/-- Modelled from the spec: the dispatcher's admission pass (spec section 4.4).
Walks the job list in submission order and admits pending jobs while free
worker slots remain, strictly first-in-first-out. -/
def fillSlots (t : Nat) : Nat → List JobRecord → List JobRecord
  | _, [] => []
  | 0, l => l
  | free + 1, j :: rest =>
    if j.state == JobState.pending then
      startJob t j :: fillSlots t free rest
    else
      j :: fillSlots t (free + 1) rest

/-- Modelled from the spec: fill all free worker slots from the pending queue
(spec section 4.4, "whenever a running job reaches a terminal state, the next
queued job (if any) is admitted"). -/
def dispatch (s : JobStore) : JobStore :=
  { s with jobs := fillSlots s.clock (s.capacity - runningCount s.jobs) s.jobs }

/-- Outcome of a submission: a fresh job identifier or a validation error. -/
inductive SubmitOutcome where
  | ok (jobId : Nat)
  | validationError (msg : String)
  deriving DecidableEq, Repr

/-- Modelled from the spec: the record created by `submit_job` (spec sections
3 and 4.3): fresh identifier, `pending` state, no timestamps beyond
`submittedAt`, empty log, no result and no error. -/
def newJobRecord (s : JobStore) (program : String) (arguments : List String)
    (workingDirectory name : String) : JobRecord :=
  { id := s.nextId, name := name, program := program, arguments := arguments,
    workingDirectory := workingDirectory, state := .pending,
    submittedAt := s.clock, startedAt := none, finishedAt := none,
    exitCode := none, result := none, errorMessage := none, log := [] }

/-- Modelled from the spec: `submit_job` (spec sections 4.3 and 6).  An empty
program path is a validation error and creates no record; otherwise a fresh
record is appended in `pending` state and the dispatcher runs.  (The spec's
"unreadable at submission time" check is a filesystem property outside this
embedding.) -/
def submit_job (s : JobStore) (program : String) (arguments : List String)
    (workingDirectory name : String) : JobStore × SubmitOutcome :=
  if program = "" then
    (s, .validationError "empty program path")
  else
    (dispatch { s with
        jobs := s.jobs ++ [newJobRecord s program arguments workingDirectory name],
        nextId := s.nextId + 1 },
     .ok s.nextId)

/-- Pointwise update of the record with the given identifier. -/
def updateJob (id : Nat) (f : JobRecord → JobRecord) (l : List JobRecord) :
    List JobRecord :=
  l.map (fun j => if j.id == id then f j else j)

/-- Modelled from the spec: the record change for a honored cancellation
(spec section 4.3): state `cancelled`, `finishedAt` set, a cancellation reason
recorded. -/
def cancelRecord (t : Nat) (j : JobRecord) : JobRecord :=
  { j with
    state := .cancelled, finishedAt := some t,
    errorMessage := some "cancelled by request" }

/-- Outcome reported by `cancel_job`. -/
inductive CancelOutcome where
  | cancelled
  | invalidTransition
  | jobNotFound
  deriving DecidableEq, Repr

/-- Modelled from the spec: `cancel_job` (spec sections 4.3, 5 and 6).  A
pending job is removed from the queue (record kept, state `cancelled`); a
running job is terminated and a freed slot is refilled; a terminal job is a
safe no-op reported as an invalid state transition. -/
def cancel_job (s : JobStore) (id : Nat) : JobStore × CancelOutcome :=
  match findJob s id with
  | none => (s, .jobNotFound)
  | some j =>
    match j.state with
    | .pending =>
        ({ s with jobs := updateJob id (cancelRecord s.clock) s.jobs }, .cancelled)
    | .running =>
        (dispatch { s with jobs := updateJob id (cancelRecord s.clock) s.jobs },
         .cancelled)
    | _ => (s, .invalidTransition)

/-- Modelled from the spec: the record change when the supervised process
exits (spec section 4.3): exit code 0 gives `completed` with a result payload,
any other code gives `failed` with an error message; `finishedAt` is set. -/
def finishRecord (t : Nat) (code : Int) (payload : String) (j : JobRecord) :
    JobRecord :=
  if code = 0 then
    { j with
      state := .completed, exitCode := some code, finishedAt := some t,
      result := some payload }
  else
    { j with
      state := .failed, exitCode := some code, finishedAt := some t,
      errorMessage := some ("process exited with code " ++ toString code) }

/-- Modelled from the spec: the process-exit callback driven by the per-job
supervisor (spec sections 4.3 and 7); only applies to a running job, then the
freed worker slot is refilled. -/
def finish_job (s : JobStore) (id : Nat) (code : Int) (payload : String) :
    JobStore :=
  match findJob s id with
  | some j =>
      if j.state == JobState.running then
        dispatch { s with jobs := updateJob id (finishRecord s.clock code payload) s.jobs }
      else s
  | none => s

/-- Modelled from the spec: the output reader appending one line to the job's
log buffer (spec sections 4.1 and 4.2). -/
def append_output (s : JobStore) (id : Nat) (line : String) : JobStore :=
  { s with jobs := updateJob id (fun j => { j with log := j.log ++ [line] }) s.jobs }

/-- Status view returned by `get_job_status` (spec section 6). -/
structure StatusView where
  state : JobState
  submittedAt : Nat
  startedAt : Option Nat
  finishedAt : Option Nat
  exitCode : Option Int
  deriving DecidableEq, Repr

inductive StatusOutcome where
  | ok (v : StatusView)
  | jobNotFound
  deriving DecidableEq, Repr

/-- Modelled from the spec: `get_job_status` (spec section 6); unknown
identifiers fail with JobNotFound. -/
def get_job_status (s : JobStore) (id : Nat) : StatusOutcome :=
  match findJob s id with
  | none => .jobNotFound
  | some j => .ok ⟨j.state, j.submittedAt, j.startedAt, j.finishedAt, j.exitCode⟩

inductive ResultOutcome where
  | payload (p : String)
  | notReady
  | jobNotFound
  deriving DecidableEq, Repr

/-- Modelled from the spec: `get_job_result` (spec section 6); the result
payload for a completed job, an explicit not-ready indicator otherwise. -/
def get_job_result (s : JobStore) (id : Nat) : ResultOutcome :=
  match findJob s id with
  | none => .jobNotFound
  | some j =>
    if j.state == JobState.completed then
      match j.result with
      | some p => .payload p
      | none => .notReady
    else .notReady

/-- Modelled from the spec: the LogBuffer tail read (spec section 4.2):
the last `n` lines, or the whole log when `n = 0`. -/
def readTail (n : Nat) (lines : List String) : List String :=
  if n = 0 then lines else lines.drop (lines.length - n)

inductive LogOutcome where
  | ok (lines : List String) (totalLines : Nat)
  | jobNotFound
  deriving DecidableEq, Repr

/-- Modelled from the spec: `get_job_log` (spec section 6). -/
def get_job_log (s : JobStore) (id : Nat) (tail : Nat) : LogOutcome :=
  match findJob s id with
  | none => .jobNotFound
  | some j => .ok (readTail tail j.log) j.log.length

/-- Modelled from the spec: `list_jobs` (spec section 6): all records in
submission order, optionally filtered to one state. -/
def list_jobs (s : JobStore) (filter : Option JobState) : List JobRecord :=
  match filter with
  | none => s.jobs
  | some st => s.jobs.filter (fun j => j.state == st)

/-- Control events that mutate the store: submissions, cancellations,
process-exit callbacks and output lines.  The query operations
(`get_job_status`, `get_job_result`, `get_job_log`, `list_jobs`) are pure
functions of the store and never mutate it. -/
inductive Event where
  | submit (program : String) (arguments : List String) (workingDirectory name : String)
  | cancel (id : Nat)
  | processExit (id : Nat) (code : Int) (payload : String)
  | outputLine (id : Nat) (line : String)

/-- One mutating step of the job manager; the logical clock advances. -/
def applyEvent (s : JobStore) : Event → JobStore
  | .submit p a w n => { (submit_job s p a w n).1 with clock := s.clock + 1 }
  | .cancel id => { (cancel_job s id).1 with clock := s.clock + 1 }
  | .processExit id c pay => { finish_job s id c pay with clock := s.clock + 1 }
  | .outputLine id line => { append_output s id line with clock := s.clock + 1 }

def applyEvents (s : JobStore) : List Event → JobStore
  | [] => s
  | e :: es => applyEvents (applyEvent s e) es

/-- Fresh store with worker-pool capacity `capacity`. -/
def initStore (capacity : Nat) : JobStore :=
  { capacity := capacity, jobs := [], nextId := 0, clock := 0 }

/-- Stores reachable from a fresh store by mutating events. -/
inductive Reachable : JobStore → Prop where
  | init (capacity : Nat) : Reachable (initStore capacity)
  | step {s : JobStore} (e : Event) : Reachable s → Reachable (applyEvent s e)

/-- Legal single transitions of the spec section 4.3 state machine. -/
def legalEdge : JobState → JobState → Bool
  | .pending, .running => true
  | .pending, .cancelled => true
  | .running, .completed => true
  | .running, .failed => true
  | .running, .cancelled => true
  | _, _ => false

/-! ## External process invocation (from the scripts' source) -/

/-- Shape of an external process invocation: either a discrete argument
vector (Python `subprocess.run` with a list) or a single shell-interpreted
command string (`shell=True`). -/
inductive SpawnCommand where
  | argumentVector (argv : List String)
  | shellLine (line : String)
  deriving DecidableEq, Repr

/-- One spawn request: the command plus the explicit working directory
(the `cwd` keyword of `subprocess.run`). -/
structure SpawnCall where
  command : SpawnCommand
  cwd : String
  deriving DecidableEq, Repr

/-- From `scripts/basic_prediction.py`, `_run_drfold2_prediction`:
`cmd = [sys.executable, str(dlmain), device, str(input_file),
str(output_prefix), str(mdir)]` run with `cwd=str(repo_path)`. -/
def basicPredictionSpawn (pythonExe dlmain device inputFile outputBase mdir
    repoPath : String) : SpawnCall :=
  { command := .argumentVector [pythonExe, dlmain, device, inputFile, outputBase, mdir],
    cwd := repoPath }

/-- From `scripts/ensemble_prediction.py`, `_run_drfold2_ensemble`: the same
six-element vector run with `cwd=str(repo_path)` for each selected model. -/
def ensembleModelSpawn (pythonExe dlmain device inputFile outputBase mdir
    repoPath : String) : SpawnCall :=
  { command := .argumentVector [pythonExe, dlmain, device, inputFile, outputBase, mdir],
    cwd := repoPath }

/-- From `scripts/model_inference.py`, `_run_drfold2_inference`:
`cmd = [sys.executable, script_path, device, str(input_file),
str(output_prefix), model_path]` run with `cwd=str(REPO_PATH)`. -/
def modelInferenceSpawn (pythonExe scriptPath device inputFile outputBase
    modelPath repoPath : String) : SpawnCall :=
  { command := .argumentVector [pythonExe, scriptPath, device, inputFile, outputBase, modelPath],
    cwd := repoPath }

/-- Modelled from the spec: `ProcessRunner.start(program, arguments,
workingDirectory)` of spec section 4.1 (the job manager's runner is absent
from the source tree): the program is invoked with the explicit argument
vector and working directory. -/
def processRunnerStart (program : String) (arguments : List String)
    (workingDirectory : String) : SpawnCall :=
  { command := .argumentVector (program :: arguments), cwd := workingDirectory }

/-! ## The server's batch submission tool (from `src/server.py`) -/

/-- Effect of `submit_batch_rna_prediction` in `src/server.py`: either the
error dictionary for an empty input list, or a single `job_manager.submit_job`
call carrying the script path, the `input` argument, the output directory, the
model configuration and the job name. -/
inductive BatchSubmitAction where
  | errorNoInput
  | submitCall (scriptPath inputFile : String) (outputDir : Option String)
      (modelConfig jobName : String)
  deriving DecidableEq, Repr

/-- Python's `x or default` for an optional string: the default is used when
the value is `None` or the empty string (both falsy). -/
def pyOrDefault (o : Option String) (d : String) : String :=
  match o with
  | some v => if v = "" then d else v
  | none => d

/-- From `src/server.py`, `submit_batch_rna_prediction`: rejects an empty
`input_files` list with an error dictionary, otherwise submits one job whose
`input` argument is `input_files[0]`; the default job name is
`batch_<len(input_files)>_sequences`. -/
def submit_batch_rna_prediction (scriptsDir : String) (input_files : List String)
    (output_dir : Option String) (model_config : String)
    (job_name : Option String) : BatchSubmitAction :=
  match input_files with
  | [] => .errorNoInput
  | f :: rest =>
      .submitCall (scriptsDir ++ "/basic_prediction.py") f output_dir model_config
        (pyOrDefault job_name ("batch_" ++ toString (rest.length + 1) ++ "_sequences"))

/-! ## RNA sequence validators (from `scripts/lib/validation.py` and
`scripts/basic_prediction.py`) -/

/-- ASCII whitespace characters stripped by Python's `str.strip()`. -/
def isPySpace (c : Char) : Bool :=
  c == ' ' || c == '\t' || c == '\n' || c == '\r' || c == '\x0b' || c == '\x0c'

/-- Python's `str.strip()`: remove leading and trailing whitespace. -/
def pyStrip (l : List Char) : List Char :=
  ((l.dropWhile isPySpace).reverse.dropWhile isPySpace).reverse

namespace ValidationLib

/-- Valid nucleotide set of `scripts/lib/validation.py`: the four standard
bases, extended with the ambiguity codes when `allow_ambiguous` is set. -/
def validNucs (allow_ambiguous : Bool) : List Char :=
  ['A', 'U', 'G', 'C'] ++
    (if allow_ambiguous then
      ['R', 'Y', 'S', 'W', 'K', 'M', 'B', 'D', 'H', 'V', 'N']
    else [])

/-- From `scripts/lib/validation.py`, `validate_rna_sequence`: an empty
sequence is invalid; otherwise the sequence is uppercased, stripped, and every
character must be a standard nucleotide (or, with `allow_ambiguous`, an
ambiguity code).  Characters are modelled with Lean's `Char`, whose
`toUpper` agrees with Python's on ASCII. -/
def validate_rna_sequence (sequence : List Char) (allow_ambiguous : Bool) : Bool :=
  if sequence = [] then
    false
  else
    (pyStrip (sequence.map Char.toUpper)).all
      (fun c => (validNucs allow_ambiguous).contains c)

end ValidationLib

namespace BasicPredictionScript

/-- From `scripts/basic_prediction.py`, the inlined `validate_rna_sequence`:
`valid_nucleotides = set('AUGCU')` and every character's uppercase form must
belong to it (no emptiness check, no stripping). -/
def validate_rna_sequence (sequence : List Char) : Bool :=
  sequence.all (fun c => ['A', 'U', 'G', 'C', 'U'].contains c.toUpper)

end BasicPredictionScript

/-! ## Basic record and dispatcher lemmas -/

theorem startJob_id (t : Nat) (j : JobRecord) : (startJob t j).id = j.id := rfl

theorem startJob_state (t : Nat) (j : JobRecord) : (startJob t j).state = .running := rfl

theorem startJob_result (t : Nat) (j : JobRecord) : (startJob t j).result = j.result := rfl

theorem cancelRecord_id (t : Nat) (j : JobRecord) : (cancelRecord t j).id = j.id := rfl

theorem cancelRecord_state (t : Nat) (j : JobRecord) :
    (cancelRecord t j).state = .cancelled := rfl

theorem cancelRecord_result (t : Nat) (j : JobRecord) :
    (cancelRecord t j).result = j.result := rfl

theorem finishRecord_id (t : Nat) (code : Int) (payload : String) (j : JobRecord) :
    (finishRecord t code payload j).id = j.id := by
  by_cases h : code = 0 <;> simp [finishRecord, h]

theorem finishRecord_state (t : Nat) (code : Int) (payload : String) (j : JobRecord) :
    (finishRecord t code payload j).state =
      (if code = 0 then JobState.completed else JobState.failed) := by
  by_cases h : code = 0 <;> simp [finishRecord, h]

theorem fillSlots_nil (t free : Nat) : fillSlots t free [] = [] := by
  cases free <;> rfl

theorem fillSlots_zero (t : Nat) (l : List JobRecord) : fillSlots t 0 l = l := by
  cases l <;> rfl

theorem fillSlots_cons_succ (t free : Nat) (j : JobRecord) (rest : List JobRecord) :
    fillSlots t (free + 1) (j :: rest) =
      if j.state == JobState.pending then startJob t j :: fillSlots t free rest
      else j :: fillSlots t (free + 1) rest := rfl

theorem fillSlots_map_id (t : Nat) :
    ∀ (free : Nat) (l : List JobRecord),
      (fillSlots t free l).map (fun j => j.id) = l.map (fun j => j.id) := by
  intro free l
  induction l generalizing free with
  | nil => simp [fillSlots_nil]
  | cons j rest ih =>
    cases free with
    | zero => simp [fillSlots_zero]
    | succ free =>
      rw [fillSlots_cons_succ]
      cases h : j.state == JobState.pending <;> simp [h, ih, startJob_id]

theorem mem_fillSlots (t : Nat) :
    ∀ (free : Nat) (l : List JobRecord) (j' : JobRecord), j' ∈ fillSlots t free l →
      j' ∈ l ∨ ∃ j ∈ l, j.state = JobState.pending ∧ j' = startJob t j := by
  intro free l
  induction l generalizing free with
  | nil => intro j' h; simp [fillSlots_nil] at h
  | cons j rest ih =>
    intro j' hmem
    cases free with
    | zero =>
      rw [fillSlots_zero] at hmem
      exact Or.inl hmem
    | succ free =>
      rw [fillSlots_cons_succ] at hmem
      cases h : j.state == JobState.pending with
      | true =>
        rw [h] at hmem
        simp only [if_true] at hmem
        rcases List.mem_cons.mp hmem with h1 | h1
        · exact Or.inr ⟨j, List.mem_cons_self j rest, beq_iff_eq.mp h, h1⟩
        · rcases ih free j' h1 with h2 | ⟨j0, hj0, hp, he⟩
          · exact Or.inl (List.mem_cons_of_mem j h2)
          · exact Or.inr ⟨j0, List.mem_cons_of_mem j hj0, hp, he⟩
      | false =>
        rw [h] at hmem
        simp at hmem
        rcases hmem with h1 | h1
        · exact Or.inl (h1 ▸ List.mem_cons_self j rest)
        · rcases ih (free + 1) j' h1 with h2 | ⟨j0, hj0, hp, he⟩
          · exact Or.inl (List.mem_cons_of_mem j h2)
          · exact Or.inr ⟨j0, List.mem_cons_of_mem j hj0, hp, he⟩

theorem findP_fillSlots (t id : Nat) :
    ∀ (free : Nat) (l : List JobRecord),
      (fillSlots t free l).find? (fun j => j.id == id) = l.find? (fun j => j.id == id)
      ∨ ∃ j, l.find? (fun j => j.id == id) = some j ∧ j.state = JobState.pending ∧
          (fillSlots t free l).find? (fun j => j.id == id) = some (startJob t j) := by
  intro free l
  induction l generalizing free with
  | nil => left; simp [fillSlots_nil]
  | cons j rest ih =>
    cases free with
    | zero => left; rw [fillSlots_zero]
    | succ free =>
      rw [fillSlots_cons_succ]
      by_cases hp : j.state = JobState.pending
      · have hb : (j.state == JobState.pending) = true := beq_iff_eq.mpr hp
        rw [hb, if_pos rfl]
        by_cases hk : j.id = id
        · right
          have hkb : (j.id == id) = true := beq_iff_eq.mpr hk
          refine ⟨j, ?_, hp, ?_⟩
          · simp [List.find?_cons, hkb]
          · have hkb2 : ((startJob t j).id == id) = true := hkb
            simp [List.find?_cons, hkb2]
        · have hkb : (j.id == id) = false := beq_eq_false_iff_ne.mpr hk
          have hkb2 : ((startJob t j).id == id) = false := hkb
          simp only [List.find?_cons, hkb, hkb2]
          exact ih free
      · have hpb : (j.state == JobState.pending) = false := beq_eq_false_iff_ne.mpr hp
        rw [hpb, if_neg Bool.false_ne_true]
        by_cases hk : j.id = id
        · left
          have hkb : (j.id == id) = true := beq_iff_eq.mpr hk
          simp [List.find?_cons, hkb]
        · have hkb : (j.id == id) = false := beq_eq_false_iff_ne.mpr hk
          simp only [List.find?_cons, hkb]
          exact ih (free + 1)

theorem fillSlots_runningCount (t : Nat) :
    ∀ (free : Nat) (l : List JobRecord),
      runningCount (fillSlots t free l) = runningCount l + min free (pendingCount l) := by
  intro free l
  induction l generalizing free with
  | nil => simp [fillSlots_nil, runningCount, pendingCount, stateCount]
  | cons j rest ih =>
    cases free with
    | zero => simp [fillSlots_zero]
    | succ free =>
      rw [fillSlots_cons_succ]
      have hrec := ih free
      have hrec2 := ih (free + 1)
      simp only [runningCount, pendingCount, stateCount] at hrec hrec2 ⊢
      by_cases hp : j.state = JobState.pending
      · have hb : (j.state == JobState.pending) = true := beq_iff_eq.mpr hp
        rw [hb, if_pos rfl]
        simp only [List.countP_cons]
        have h1 : ((startJob t j).state == JobState.running) = true := rfl
        have h2 : (j.state == JobState.running) = false := by rw [hp]; rfl
        have e1 : (if (true = true) then 1 else 0) = 1 := rfl
        have e2 : (if (false = true) then 1 else 0) = 0 := rfl
        rw [h1, h2, hb, e1, e2]
        omega
      · have hpb : (j.state == JobState.pending) = false := beq_eq_false_iff_ne.mpr hp
        have e2 : (if (false = true) then 1 else 0) = 0 := rfl
        rw [hpb, if_neg Bool.false_ne_true]
        simp only [List.countP_cons]
        rw [hpb, e2]
        omega

theorem fillSlots_pendingCount (t : Nat) :
    ∀ (free : Nat) (l : List JobRecord),
      pendingCount (fillSlots t free l) + min free (pendingCount l) = pendingCount l := by
  intro free l
  induction l generalizing free with
  | nil => simp [fillSlots_nil, pendingCount, stateCount]
  | cons j rest ih =>
    cases free with
    | zero => simp [fillSlots_zero]
    | succ free =>
      rw [fillSlots_cons_succ]
      have hrec := ih free
      have hrec2 := ih (free + 1)
      simp only [pendingCount, stateCount] at hrec hrec2 ⊢
      by_cases hp : j.state = JobState.pending
      · have hb : (j.state == JobState.pending) = true := beq_iff_eq.mpr hp
        rw [hb, if_pos rfl]
        simp only [List.countP_cons]
        have h1 : ((startJob t j).state == JobState.pending) = false := rfl
        have e1 : (if (true = true) then 1 else 0) = 1 := rfl
        have e2 : (if (false = true) then 1 else 0) = 0 := rfl
        rw [h1, hb, e1, e2]
        omega
      · have hpb : (j.state == JobState.pending) = false := beq_eq_false_iff_ne.mpr hp
        have e2 : (if (false = true) then 1 else 0) = 0 := rfl
        rw [hpb, if_neg Bool.false_ne_true]
        simp only [List.countP_cons]
        rw [hpb, e2]
        omega

theorem nonTerminalCount_eq (l : List JobRecord) :
    nonTerminalCount l = pendingCount l + runningCount l := by
  induction l with
  | nil => rfl
  | cons j rest ih =>
    unfold nonTerminalCount pendingCount runningCount stateCount at ih ⊢
    rw [List.countP_cons, List.countP_cons, List.countP_cons, ih]
    cases j.state <;> simp [JobState.isTerminal] <;> omega


theorem findP_updateJob (id0 : Nat) (f : JobRecord → JobRecord)
    (hf : ∀ j, (f j).id = j.id) (l : List JobRecord) (id : Nat) :
    (updateJob id0 f l).find? (fun j => j.id == id)
      = (l.find? (fun j => j.id == id)).map (fun j => if j.id == id0 then f j else j) := by
  unfold updateJob
  rw [List.find?_map]
  have hpg : ((fun j : JobRecord => j.id == id) ∘ fun j => if j.id == id0 then f j else j)
      = fun j : JobRecord => j.id == id := by
    funext j
    simp only [Function.comp_apply]
    by_cases h : j.id = id0
    · have hb : (j.id == id0) = true := beq_iff_eq.mpr h
      rw [hb, if_pos rfl, hf]
    · have hb : (j.id == id0) = false := beq_eq_false_iff_ne.mpr h
      rw [hb, if_neg Bool.false_ne_true]
  rw [hpg]

theorem updateJob_map_id (id0 : Nat) (f : JobRecord → JobRecord)
    (hf : ∀ j, (f j).id = j.id) (l : List JobRecord) :
    (updateJob id0 f l).map (fun j => j.id) = l.map (fun j => j.id) := by
  unfold updateJob
  rw [List.map_map]
  apply List.map_congr_left
  intro j _
  simp only [Function.comp_apply]
  by_cases h : j.id = id0
  · have hb : (j.id == id0) = true := beq_iff_eq.mpr h
    rw [hb, if_pos rfl, hf]
  · have hb : (j.id == id0) = false := beq_eq_false_iff_ne.mpr h
    rw [hb, if_neg Bool.false_ne_true]

theorem mem_updateJob (id0 : Nat) (f : JobRecord → JobRecord) (l : List JobRecord)
    (j' : JobRecord) (h : j' ∈ updateJob id0 f l) :
    ∃ j ∈ l, j' = j ∨ (j.id = id0 ∧ j' = f j) := by
  unfold updateJob at h
  rcases List.mem_map.mp h with ⟨j, hj, he⟩
  refine ⟨j, hj, ?_⟩
  by_cases hk : j.id = id0
  · have hb : (j.id == id0) = true := beq_iff_eq.mpr hk
    rw [hb, if_pos rfl] at he
    exact Or.inr ⟨hk, he.symm⟩
  · have hb : (j.id == id0) = false := beq_eq_false_iff_ne.mpr hk
    rw [hb, if_neg Bool.false_ne_true] at he
    exact Or.inl he.symm

theorem updateJob_eq_self (id0 : Nat) (f : JobRecord → JobRecord) (l : List JobRecord)
    (h : ∀ j ∈ l, j.id ≠ id0) : updateJob id0 f l = l := by
  unfold updateJob
  have : ∀ j ∈ l, (if j.id == id0 then f j else j) = j := by
    intro j hj
    have hb : (j.id == id0) = false := beq_eq_false_iff_ne.mpr (h j hj)
    rw [hb, if_neg Bool.false_ne_true]
  calc l.map (fun j => if j.id == id0 then f j else j) = l.map id :=
        List.map_congr_left (by intro j hj; rw [this j hj]; rfl)
    _ = l := List.map_id l

theorem countP_updateJob (p : JobRecord → Bool) (id0 : Nat) (f : JobRecord → JobRecord) :
    ∀ (l : List JobRecord) (j0 : JobRecord),
      l.Pairwise (fun a b => a.id < b.id) →
      l.find? (fun j => j.id == id0) = some j0 →
      List.countP p (updateJob id0 f l) + (if p j0 then 1 else 0)
        = List.countP p l + (if p (f j0) then 1 else 0) := by
  intro l
  induction l with
  | nil => intro j0 _ hfind; simp at hfind
  | cons a rest ih =>
    intro j0 hsorted hfind
    have hpw := List.pairwise_cons.mp hsorted
    by_cases hk : a.id = id0
    · have hb : (a.id == id0) = true := beq_iff_eq.mpr hk
      rw [List.find?_cons, hb] at hfind
      simp only [Option.some.injEq] at hfind
      subst hfind
      have hrest : updateJob id0 f rest = rest := by
        apply updateJob_eq_self
        intro j hj
        have := hpw.1 j hj
        omega
      unfold updateJob
      simp only [List.map_cons, hb, if_pos rfl, List.countP_cons, if_true]
      have : (rest.map fun j => if j.id == id0 then f j else j) = rest := hrest
      rw [this]
      omega
    · have hb : (a.id == id0) = false := beq_eq_false_iff_ne.mpr hk
      rw [List.find?_cons, hb] at hfind
      have := ih j0 hpw.2 hfind
      unfold updateJob at this ⊢
      simp only [List.map_cons, hb, List.countP_cons]
      rw [if_neg Bool.false_ne_true]
      omega

theorem pairwise_id_unique {l : List JobRecord}
    (hsorted : l.Pairwise (fun a b => a.id < b.id)) :
    ∀ a ∈ l, ∀ b ∈ l, a.id = b.id → a = b := by
  induction l with
  | nil => intro a ha; simp at ha
  | cons x rest ih =>
    have hpw := List.pairwise_cons.mp hsorted
    intro a ha b hb heq
    rcases List.mem_cons.mp ha with ha1 | ha1 <;> rcases List.mem_cons.mp hb with hb1 | hb1
    · rw [ha1, hb1]
    · exfalso; have := hpw.1 b hb1; rw [ha1] at heq; omega
    · exfalso; have := hpw.1 a ha1; rw [hb1] at heq; omega
    · exact ih hpw.2 a ha1 b hb1 heq

theorem dispatch_counts (s : JobStore) (h : runningCount s.jobs ≤ s.capacity) :
    runningCount (dispatch s).jobs ≤ s.capacity ∧
    (0 < pendingCount (dispatch s).jobs → runningCount (dispatch s).jobs = s.capacity) := by
  have hr := fillSlots_runningCount s.clock (s.capacity - runningCount s.jobs) s.jobs
  have hp2 := fillSlots_pendingCount s.clock (s.capacity - runningCount s.jobs) s.jobs
  have hjobs : (dispatch s).jobs = fillSlots s.clock (s.capacity - runningCount s.jobs) s.jobs := rfl
  rw [hjobs]
  omega

theorem dispatch_capacity (s : JobStore) : (dispatch s).capacity = s.capacity := rfl

theorem dispatch_clock (s : JobStore) : (dispatch s).clock = s.clock := rfl

theorem dispatch_nextId (s : JobStore) : (dispatch s).nextId = s.nextId := rfl

theorem findJob_dispatch (s : JobStore) (id : Nat) :
    findJob (dispatch s) id = findJob s id
    ∨ ∃ j, findJob s id = some j ∧ j.state = JobState.pending ∧
        findJob (dispatch s) id = some (startJob s.clock j) :=
  findP_fillSlots s.clock id (s.capacity - runningCount s.jobs) s.jobs

theorem countP_updateJob_stable (p : JobRecord → Bool) (id0 : Nat)
    (f : JobRecord → JobRecord) (hf : ∀ j, p (f j) = p j) (l : List JobRecord) :
    List.countP p (updateJob id0 f l) = List.countP p l := by
  unfold updateJob
  rw [List.countP_map]
  apply List.countP_congr
  intro j _
  simp only [Function.comp_apply]
  by_cases h : j.id = id0
  · have hb : (j.id == id0) = true := beq_iff_eq.mpr h
    rw [hb, if_pos rfl, hf]
  · have hb : (j.id == id0) = false := beq_eq_false_iff_ne.mpr h
    rw [hb, if_neg Bool.false_ne_true]

theorem pairwise_of_map_id_eq {l l' : List JobRecord}
    (h : l'.map (fun j => j.id) = l.map (fun j => j.id))
    (hs : l.Pairwise fun a b => a.id < b.id) :
    l'.Pairwise fun a b => a.id < b.id := by
  have h1 : (l.map fun j => j.id).Pairwise (· < ·) := List.pairwise_map.mpr hs
  rw [← h] at h1
  exact List.pairwise_map.mp h1

theorem exists_id_of_map_id_eq {l l' : List JobRecord}
    (h : l'.map (fun j => j.id) = l.map (fun j => j.id))
    {j : JobRecord} (hj : j ∈ l) : ∃ j' ∈ l', j'.id = j.id := by
  have : j.id ∈ l'.map (fun j => j.id) := by
    rw [h]
    exact List.mem_map_of_mem _ hj
  rcases List.mem_map.mp this with ⟨j', hj', he⟩
  exact ⟨j', hj', he⟩

/-- Modelled from the spec: the global invariant of the job store (spec
sections 3, 4.4 and 5): records sorted by (submission-ordered) identifier,
identifiers exactly the ones handed out so far, `result` present exactly on
completed jobs, the running set bounded by the worker-pool capacity, and all
slots busy whenever a job is queued. -/
structure StoreInv (s : JobStore) : Prop where
  sorted : s.jobs.Pairwise (fun a b => a.id < b.id)
  idLt : ∀ j ∈ s.jobs, j.id < s.nextId
  idCover : ∀ i, i < s.nextId → ∃ j ∈ s.jobs, j.id = i
  resIff : ∀ j ∈ s.jobs, j.result.isSome = true ↔ j.state = JobState.completed
  runLe : runningCount s.jobs ≤ s.capacity
  pendFull : 0 < pendingCount s.jobs → runningCount s.jobs = s.capacity

theorem storeInv_setClock {s : JobStore} (h : StoreInv s) (c : Nat) :
    StoreInv { s with clock := c } :=
  ⟨h.sorted, h.idLt, h.idCover, h.resIff, h.runLe, h.pendFull⟩

theorem storeInv_dispatch (s : JobStore)
    (hs : s.jobs.Pairwise (fun a b => a.id < b.id))
    (hlt : ∀ j ∈ s.jobs, j.id < s.nextId)
    (hcov : ∀ i, i < s.nextId → ∃ j ∈ s.jobs, j.id = i)
    (hres : ∀ j ∈ s.jobs, j.result.isSome = true ↔ j.state = JobState.completed)
    (hrun : runningCount s.jobs ≤ s.capacity) :
    StoreInv (dispatch s) := by
  have hmap := fillSlots_map_id s.clock (s.capacity - runningCount s.jobs) s.jobs
  have hjobs : (dispatch s).jobs = fillSlots s.clock (s.capacity - runningCount s.jobs) s.jobs := rfl
  have hcounts := dispatch_counts s hrun
  constructor
  · rw [hjobs]
    exact pairwise_of_map_id_eq hmap hs
  · intro j hj
    rw [hjobs] at hj
    rcases mem_fillSlots _ _ _ _ hj with h1 | ⟨j0, hj0, _, he⟩
    · exact hlt j h1
    · rw [he, startJob_id]
      exact hlt j0 hj0
  · intro i hi
    rcases hcov i hi with ⟨j, hj, he⟩
    rw [hjobs]
    rcases exists_id_of_map_id_eq hmap hj with ⟨j', hj', he'⟩
    exact ⟨j', hj', by rw [he', he]⟩
  · intro j hj
    rw [hjobs] at hj
    rcases mem_fillSlots _ _ _ _ hj with h1 | ⟨j0, hj0, hpend, he⟩
    · exact hres j h1
    · rw [he, startJob_result, startJob_state]
      have := hres j0 hj0
      rw [hpend] at this
      simp only [this]
      constructor
      · intro h2; exact absurd h2 (by simp)
      · intro h2; exact absurd h2 (by simp)
  · exact hcounts.1
  · exact hcounts.2

theorem cancelRecord_not_running (t : Nat) (j : JobRecord) :
    ((cancelRecord t j).state == JobState.running) = false := rfl

theorem cancelRecord_not_pending (t : Nat) (j : JobRecord) :
    ((cancelRecord t j).state == JobState.pending) = false := rfl

theorem finishRecord_not_running (t : Nat) (c : Int) (p : String) (j : JobRecord) :
    ((finishRecord t c p j).state == JobState.running) = false := by
  by_cases h : c = 0 <;> simp [finishRecord, h]

theorem finishRecord_not_pending (t : Nat) (c : Int) (p : String) (j : JobRecord) :
    ((finishRecord t c p j).state == JobState.pending) = false := by
  by_cases h : c = 0 <;> simp [finishRecord, h]

theorem findJob_id {s : JobStore} {id : Nat} {j : JobRecord}
    (h : findJob s id = some j) : j.id = id := by
  have h2 : List.find? (fun x => x.id == id) s.jobs = some j := h
  have h3 := List.find?_some h2
  exact beq_iff_eq.mp h3

theorem findJob_mem {s : JobStore} {id : Nat} {j : JobRecord}
    (h : findJob s id = some j) : j ∈ s.jobs := by
  have h2 : List.find? (fun x => x.id == id) s.jobs = some j := h
  exact List.mem_of_find?_eq_some h2

theorem cancel_job_eq_none {s : JobStore} {id : Nat} (h : findJob s id = none) :
    cancel_job s id = (s, .jobNotFound) := by
  unfold cancel_job; rw [h]

theorem cancel_job_eq_some {s : JobStore} {id : Nat} {j : JobRecord}
    (h : findJob s id = some j) :
    cancel_job s id =
      (match j.state with
        | .pending =>
            ({ s with jobs := updateJob id (cancelRecord s.clock) s.jobs }, .cancelled)
        | .running =>
            (dispatch { s with jobs := updateJob id (cancelRecord s.clock) s.jobs },
             .cancelled)
        | _ => (s, .invalidTransition)) := by
  unfold cancel_job; rw [h]

theorem finish_job_eq_none {s : JobStore} {id : Nat} {code : Int} {pay : String}
    (h : findJob s id = none) : finish_job s id code pay = s := by
  unfold finish_job; rw [h]

theorem finish_job_eq_some {s : JobStore} {id : Nat} {code : Int} {pay : String}
    {j : JobRecord} (h : findJob s id = some j) :
    finish_job s id code pay =
      if j.state == JobState.running then
        dispatch { s with jobs := updateJob id (finishRecord s.clock code pay) s.jobs }
      else s := by
  unfold finish_job; rw [h]

theorem storeInv_applyEvent {s : JobStore} (hInv : StoreInv s) (e : Event) :
    StoreInv (applyEvent s e) := by
  have eIf0 : (if (false = true) then (1 : Nat) else 0) = 0 := rfl
  have eIf1 : (if (true = true) then (1 : Nat) else 0) = 1 := rfl
  cases e with
  | submit p a w n =>
    show StoreInv { (submit_job s p a w n).1 with clock := s.clock + 1 }
    by_cases hp : p = ""
    · have h1 : (submit_job s p a w n).1 = s := by
        unfold submit_job; rw [if_pos hp]
      rw [h1]
      exact storeInv_setClock hInv _
    · have h1 : (submit_job s p a w n).1
          = dispatch { s with
              jobs := s.jobs ++ [newJobRecord s p a w n],
              nextId := s.nextId + 1 } := by
        unfold submit_job; rw [if_neg hp]
      rw [h1]
      apply storeInv_setClock
      apply storeInv_dispatch
      · show (s.jobs ++ [newJobRecord s p a w n]).Pairwise fun a b => a.id < b.id
        rw [List.pairwise_append]
        refine ⟨hInv.sorted, by simp, ?_⟩
        intro x hx b hb
        rcases List.mem_singleton.mp hb with rfl
        have := hInv.idLt x hx
        show x.id < s.nextId
        exact this
      · intro j hj
        show j.id < s.nextId + 1
        rcases List.mem_append.mp hj with h2 | h2
        · have := hInv.idLt j h2; omega
        · rcases List.mem_singleton.mp h2 with rfl
          show s.nextId < s.nextId + 1
          omega
      · intro i hi
        show ∃ j ∈ s.jobs ++ [newJobRecord s p a w n], j.id = i
        by_cases hlt : i < s.nextId
        · rcases hInv.idCover i hlt with ⟨j, hj, he⟩
          exact ⟨j, List.mem_append_left _ hj, he⟩
        · have hieq : i = s.nextId := by
            have : i < s.nextId + 1 := hi
            omega
          refine ⟨newJobRecord s p a w n,
            List.mem_append_right _ (List.mem_singleton_self _), ?_⟩
          rw [hieq]
          rfl
      · intro j hj
        rcases List.mem_append.mp hj with h2 | h2
        · exact hInv.resIff j h2
        · rcases List.mem_singleton.mp h2 with rfl
          show (none : Option String).isSome = true ↔ JobState.pending = JobState.completed
          simp
      · show runningCount (s.jobs ++ [newJobRecord s p a w n]) ≤ s.capacity
        have h2 : runningCount (s.jobs ++ [newJobRecord s p a w n]) = runningCount s.jobs := by
          unfold runningCount stateCount
          rw [List.countP_append]
          have h3 : List.countP (fun j => j.state == JobState.running) [newJobRecord s p a w n] = 0 := rfl
          rw [h3]
          omega
        rw [h2]
        exact hInv.runLe
  | cancel id =>
    show StoreInv { (cancel_job s id).1 with clock := s.clock + 1 }
    cases hfind : findJob s id with
    | none =>
      rw [cancel_job_eq_none hfind]
      exact storeInv_setClock hInv _
    | some j =>
      have hmem : j ∈ s.jobs := findJob_mem hfind
      have hid : j.id = id := findJob_id hfind
      have hmap := updateJob_map_id id (cancelRecord s.clock) (fun x => rfl) s.jobs
      have hsorted' := pairwise_of_map_id_eq hmap hInv.sorted
      have hIdLt' : ∀ j' ∈ updateJob id (cancelRecord s.clock) s.jobs, j'.id < s.nextId := by
        intro j' hj'
        rcases mem_updateJob _ _ _ _ hj' with ⟨j0, hj0, he | ⟨_, he⟩⟩
        · exact he ▸ hInv.idLt j0 hj0
        · rw [he, cancelRecord_id]
          exact hInv.idLt j0 hj0
      have hCov' : ∀ i, i < s.nextId →
          ∃ j' ∈ updateJob id (cancelRecord s.clock) s.jobs, j'.id = i := by
        intro i hi
        rcases hInv.idCover i hi with ⟨j0, hj0, he⟩
        rcases exists_id_of_map_id_eq hmap hj0 with ⟨j', hj', he'⟩
        exact ⟨j', hj', by rw [he', he]⟩
      have hResIff : (j.state = JobState.pending ∨ j.state = JobState.running) →
          ∀ j' ∈ updateJob id (cancelRecord s.clock) s.jobs,
            j'.result.isSome = true ↔ j'.state = JobState.completed := by
        intro hpr j' hj'
        rcases mem_updateJob _ _ _ _ hj' with ⟨j0, hj0, he | ⟨hid0, he⟩⟩
        · exact he ▸ hInv.resIff j0 hj0
        · have hj0j : j0 = j := pairwise_id_unique hInv.sorted j0 hj0 j hmem (by rw [hid0, hid])
          subst hj0j
          rw [he, cancelRecord_result, cancelRecord_state]
          have h2 := hInv.resIff j0 hj0
          constructor
          · intro hx
            have h3 := h2.mp hx
            rcases hpr with h4 | h4 <;> rw [h4] at h3 <;> exact absurd h3 (by decide)
          · intro hx
            exact absurd hx (by decide)
      cases hstate : j.state with
      | pending =>
        have h1 : (cancel_job s id).1
            = { s with jobs := updateJob id (cancelRecord s.clock) s.jobs } := by
          rw [cancel_job_eq_some hfind, hstate]
        rw [h1]
        have hrc := countP_updateJob (fun x => x.state == JobState.running) id
          (cancelRecord s.clock) s.jobs j hInv.sorted hfind
        have hpc := countP_updateJob (fun x => x.state == JobState.pending) id
          (cancelRecord s.clock) s.jobs j hInv.sorted hfind
        have er1 : (j.state == JobState.running) = false := by rw [hstate]; rfl
        have ep1 : (j.state == JobState.pending) = true := by rw [hstate]; rfl
        have hv1 : ((fun x : JobRecord => x.state == JobState.running) j) = false := er1
        have hv2 : ((fun x : JobRecord => x.state == JobState.running) (cancelRecord s.clock j)) = false := rfl
        have hv3 : ((fun x : JobRecord => x.state == JobState.pending) j) = true := ep1
        have hv4 : ((fun x : JobRecord => x.state == JobState.pending) (cancelRecord s.clock j)) = false := rfl
        rw [hv1, hv2, eIf0] at hrc
        rw [hv3, hv4, eIf1, eIf0] at hpc
        have hrle := hInv.runLe
        have hpfull := hInv.pendFull
        unfold runningCount stateCount at hrle
        unfold pendingCount runningCount stateCount at hpfull
        constructor
        · exact hsorted'
        · exact hIdLt'
        · exact hCov'
        · exact hResIff (Or.inl hstate)
        · show runningCount (updateJob id (cancelRecord s.clock) s.jobs) ≤ s.capacity
          unfold runningCount stateCount
          omega
        · show 0 < pendingCount (updateJob id (cancelRecord s.clock) s.jobs) →
            runningCount (updateJob id (cancelRecord s.clock) s.jobs) = s.capacity
          unfold runningCount pendingCount stateCount
          intro hpos
          have hpend0 : 0 < List.countP (fun x => x.state == JobState.pending) s.jobs := by
            omega
          have := hpfull hpend0
          omega
      | running =>
        have h1 : (cancel_job s id).1
            = dispatch { s with jobs := updateJob id (cancelRecord s.clock) s.jobs } := by
          rw [cancel_job_eq_some hfind, hstate]
        rw [h1]
        apply storeInv_setClock
        apply storeInv_dispatch
        · exact hsorted'
        · exact hIdLt'
        · exact hCov'
        · exact hResIff (Or.inr hstate)
        · show runningCount (updateJob id (cancelRecord s.clock) s.jobs) ≤ s.capacity
          have hrc := countP_updateJob (fun x => x.state == JobState.running) id
            (cancelRecord s.clock) s.jobs j hInv.sorted hfind
          have er1 : (j.state == JobState.running) = true := by rw [hstate]; rfl
          have hv1 : ((fun x : JobRecord => x.state == JobState.running) j) = true := er1
          have hv2 : ((fun x : JobRecord => x.state == JobState.running) (cancelRecord s.clock j)) = false := rfl
          rw [hv1, hv2, eIf1, eIf0] at hrc
          have hrle := hInv.runLe
          unfold runningCount stateCount at hrle ⊢
          omega
      | completed =>
        have h1 : (cancel_job s id).1 = s := by
          rw [cancel_job_eq_some hfind, hstate]
        rw [h1]
        exact storeInv_setClock hInv _
      | failed =>
        have h1 : (cancel_job s id).1 = s := by
          rw [cancel_job_eq_some hfind, hstate]
        rw [h1]
        exact storeInv_setClock hInv _
      | cancelled =>
        have h1 : (cancel_job s id).1 = s := by
          rw [cancel_job_eq_some hfind, hstate]
        rw [h1]
        exact storeInv_setClock hInv _
  | processExit id code pay =>
    show StoreInv { finish_job s id code pay with clock := s.clock + 1 }
    cases hfind : findJob s id with
    | none =>
      rw [finish_job_eq_none hfind]
      exact storeInv_setClock hInv _
    | some j =>
      have hmem : j ∈ s.jobs := findJob_mem hfind
      have hid : j.id = id := findJob_id hfind
      by_cases hrun : j.state = JobState.running
      · have hb : (j.state == JobState.running) = true := beq_iff_eq.mpr hrun
        have h1 : finish_job s id code pay
            = dispatch { s with
                jobs := updateJob id (finishRecord s.clock code pay) s.jobs } := by
          rw [finish_job_eq_some hfind, hb, if_pos rfl]
        rw [h1]
        have hmap := updateJob_map_id id (finishRecord s.clock code pay)
          (fun x => finishRecord_id s.clock code pay x) s.jobs
        apply storeInv_setClock
        apply storeInv_dispatch
        · exact pairwise_of_map_id_eq hmap hInv.sorted
        · intro j' hj'
          rcases mem_updateJob _ _ _ _ hj' with ⟨j0, hj0, he | ⟨_, he⟩⟩
          · exact he ▸ hInv.idLt j0 hj0
          · rw [he, finishRecord_id]
            exact hInv.idLt j0 hj0
        · intro i hi
          rcases hInv.idCover i hi with ⟨j0, hj0, he⟩
          rcases exists_id_of_map_id_eq hmap hj0 with ⟨j', hj', he'⟩
          exact ⟨j', hj', by rw [he', he]⟩
        · intro j' hj'
          rcases mem_updateJob _ _ _ _ hj' with ⟨j0, hj0, he | ⟨hid0, he⟩⟩
          · exact he ▸ hInv.resIff j0 hj0
          · have hj0j : j0 = j :=
              pairwise_id_unique hInv.sorted j0 hj0 j hmem (by rw [hid0, hid])
            subst hj0j
            rw [he]
            by_cases hcode : code = 0
            · simp [finishRecord, hcode]
            · simp only [finishRecord, if_neg hcode]
              have h2 := hInv.resIff j0 hj0
              rw [hrun] at h2
              constructor
              · intro hx
                exact absurd (h2.mp hx) (by decide)
              · intro hx
                exact absurd hx (by decide)
        · show runningCount (updateJob id (finishRecord s.clock code pay) s.jobs) ≤ s.capacity
          have hrc := countP_updateJob (fun x => x.state == JobState.running) id
            (finishRecord s.clock code pay) s.jobs j hInv.sorted hfind
          have hv1 : ((fun x : JobRecord => x.state == JobState.running) j) = true := hb
          have hv2 : ((fun x : JobRecord => x.state == JobState.running) (finishRecord s.clock code pay j)) = false :=
            finishRecord_not_running s.clock code pay j
          rw [hv1, hv2, eIf1, eIf0] at hrc
          have hrle := hInv.runLe
          unfold runningCount stateCount at hrle ⊢
          omega
      · have hb : (j.state == JobState.running) = false := beq_eq_false_iff_ne.mpr hrun
        have h1 : finish_job s id code pay = s := by
          rw [finish_job_eq_some hfind, hb, if_neg Bool.false_ne_true]
        rw [h1]
        exact storeInv_setClock hInv _
  | outputLine id line =>
    show StoreInv { append_output s id line with clock := s.clock + 1 }
    have h1 : append_output s id line
        = { s with jobs := updateJob id (fun j => { j with log := j.log ++ [line] }) s.jobs } := rfl
    rw [h1]
    have hmap := updateJob_map_id id (fun j => { j with log := j.log ++ [line] })
      (fun x => rfl) s.jobs
    have hrun := countP_updateJob_stable (fun x => x.state == JobState.running) id
      (fun j => { j with log := j.log ++ [line] }) (fun x => rfl) s.jobs
    have hpend := countP_updateJob_stable (fun x => x.state == JobState.pending) id
      (fun j => { j with log := j.log ++ [line] }) (fun x => rfl) s.jobs
    constructor
    · exact pairwise_of_map_id_eq hmap hInv.sorted
    · intro j' hj'
      rcases mem_updateJob _ _ _ _ hj' with ⟨j0, hj0, he | ⟨_, he⟩⟩
      · exact he ▸ hInv.idLt j0 hj0
      · rw [he]
        exact hInv.idLt j0 hj0
    · intro i hi
      rcases hInv.idCover i hi with ⟨j0, hj0, he⟩
      rcases exists_id_of_map_id_eq hmap hj0 with ⟨j', hj', he'⟩
      exact ⟨j', hj', by rw [he', he]⟩
    · intro j' hj'
      rcases mem_updateJob _ _ _ _ hj' with ⟨j0, hj0, he | ⟨_, he⟩⟩
      · exact he ▸ hInv.resIff j0 hj0
      · rw [he]
        exact hInv.resIff j0 hj0
    · show runningCount (updateJob id (fun j => { j with log := j.log ++ [line] }) s.jobs)
          ≤ s.capacity
      unfold runningCount stateCount
      rw [hrun]
      exact hInv.runLe
    · show 0 < pendingCount (updateJob id (fun j => { j with log := j.log ++ [line] }) s.jobs) →
        runningCount (updateJob id (fun j => { j with log := j.log ++ [line] }) s.jobs)
          = s.capacity
      unfold runningCount pendingCount stateCount
      rw [hrun, hpend]
      exact hInv.pendFull

theorem storeInv_init (capacity : Nat) : StoreInv (initStore capacity) := by
  constructor
  · simp [initStore]
  · intro j hj; simp [initStore] at hj
  · intro i hi; simp [initStore] at hi
  · intro j hj; simp [initStore] at hj
  · show runningCount [] ≤ capacity
    simp [runningCount, stateCount]
  · intro h
    simp [initStore, pendingCount, stateCount] at h

theorem storeInv_reachable {s : JobStore} (h : Reachable s) : StoreInv s := by
  induction h with
  | init capacity => exact storeInv_init capacity
  | step e _ ih => exact storeInv_applyEvent ih e

theorem findJob_setClock (s : JobStore) (c : Nat) (id : Nat) :
    findJob { s with clock := c } id = findJob s id := rfl

theorem state_rel_dispatch {s2 : JobStore} {id : Nat} {jm j' : JobRecord}
    (hm : findJob s2 id = some jm) (h' : findJob (dispatch s2) id = some j') :
    j' = jm ∨ (jm.state = JobState.pending ∧ j' = startJob s2.clock jm) := by
  rcases findJob_dispatch s2 id with h | ⟨j0, hj0, hp, he⟩
  · rw [h, hm] at h'
    exact Or.inl (Option.some.inj h').symm
  · rw [hj0] at hm
    have hj0m : j0 = jm := Option.some.inj hm
    subst hj0m
    rw [he] at h'
    right
    exact ⟨hp, (Option.some.inj h').symm⟩

theorem findJob_update_store (s : JobStore) (id0 : Nat) (f : JobRecord → JobRecord)
    (hf : ∀ x, (f x).id = x.id) (id : Nat) :
    findJob { s with jobs := updateJob id0 f s.jobs } id
      = (findJob s id).map (fun x => if x.id == id0 then f x else x) :=
  findP_updateJob id0 f hf s.jobs id

theorem findJob_append_new (s : JobStore) (rec : JobRecord) (nid : Nat) (id : Nat)
    {j : JobRecord} (h : findJob s id = some j) :
    findJob { s with jobs := s.jobs ++ [rec], nextId := nid } id = some j := by
  have h2 : findJob { s with jobs := s.jobs ++ [rec], nextId := nid } id
      = (s.jobs ++ [rec]).find? (fun x => x.id == id) := rfl
  rw [h2, List.find?_append]
  have h3 : s.jobs.find? (fun x => x.id == id) = some j := h
  rw [h3]
  rfl

theorem stateStep_applyEvent (s : JobStore) (e : Event) (id : Nat)
    (j j' : JobRecord) (h : findJob s id = some j)
    (h' : findJob (applyEvent s e) id = some j') :
    j'.state = j.state ∨ legalEdge j.state j'.state = true := by
  have hjid : j.id = id := findJob_id h
  cases e with
  | submit p a w n =>
    have hcl : findJob (applyEvent s (.submit p a w n)) id = findJob (submit_job s p a w n).1 id := rfl
    rw [hcl] at h'
    by_cases hp : p = ""
    · have h1 : (submit_job s p a w n).1 = s := by unfold submit_job; rw [if_pos hp]
      rw [h1, h] at h'
      left
      rw [(Option.some.inj h').symm]
    · have h1 : (submit_job s p a w n).1
          = dispatch { s with
              jobs := s.jobs ++ [newJobRecord s p a w n],
              nextId := s.nextId + 1 } := by
        unfold submit_job; rw [if_neg hp]
      rw [h1] at h'
      have hmid := findJob_append_new s (newJobRecord s p a w n) (s.nextId + 1) id h
      rcases state_rel_dispatch hmid h' with he | ⟨hpend, he⟩
      · left; rw [he]
      · right
        rw [he, startJob_state, hpend]
        rfl
  | cancel id0 =>
    have hcl : findJob (applyEvent s (.cancel id0)) id = findJob (cancel_job s id0).1 id := rfl
    rw [hcl] at h'
    cases hfind : findJob s id0 with
    | none =>
      rw [cancel_job_eq_none hfind] at h'
      simp only at h'
      rw [h] at h'
      left
      rw [(Option.some.inj h').symm]
    | some j0 =>
      have hid0 : j0.id = id0 := findJob_id hfind
      cases hstate : j0.state with
      | pending =>
        have h1 : (cancel_job s id0).1
            = { s with jobs := updateJob id0 (cancelRecord s.clock) s.jobs } := by
          rw [cancel_job_eq_some hfind, hstate]
        rw [h1, findJob_update_store s id0 (cancelRecord s.clock) (fun x => rfl) id, h] at h'
        have hj' : j' = if j.id == id0 then cancelRecord s.clock j else j :=
          (Option.some.inj h').symm
        by_cases hk : j.id = id0
        · have hkb : (j.id == id0) = true := beq_iff_eq.mpr hk
          rw [hkb, if_pos rfl] at hj'
          have hjj0 : j = j0 := by
            rw [hjid] at hk
            rw [hk] at h
            rw [h] at hfind
            exact Option.some.inj hfind
          right
          rw [hj', cancelRecord_state, hjj0, hstate]
          rfl
        · have hkb : (j.id == id0) = false := beq_eq_false_iff_ne.mpr hk
          rw [hkb, if_neg Bool.false_ne_true] at hj'
          left
          rw [hj']
      | running =>
        have h1 : (cancel_job s id0).1
            = dispatch { s with jobs := updateJob id0 (cancelRecord s.clock) s.jobs } := by
          rw [cancel_job_eq_some hfind, hstate]
        rw [h1] at h'
        have hmid : findJob { s with jobs := updateJob id0 (cancelRecord s.clock) s.jobs } id
            = some (if j.id == id0 then cancelRecord s.clock j else j) := by
          rw [findJob_update_store s id0 (cancelRecord s.clock) (fun x => rfl) id, h]
          rfl
        rcases state_rel_dispatch hmid h' with he | ⟨hpend, he⟩
        · by_cases hk : j.id = id0
          · have hkb : (j.id == id0) = true := beq_iff_eq.mpr hk
            rw [hkb, if_pos rfl] at he
            have hjj0 : j = j0 := by
              rw [hjid] at hk
              rw [hk] at h
              rw [h] at hfind
              exact Option.some.inj hfind
            right
            rw [he, cancelRecord_state, hjj0, hstate]
            rfl
          · have hkb : (j.id == id0) = false := beq_eq_false_iff_ne.mpr hk
            rw [hkb, if_neg Bool.false_ne_true] at he
            left
            rw [he]
        · by_cases hk : j.id = id0
          · have hkb : (j.id == id0) = true := beq_iff_eq.mpr hk
            rw [hkb, if_pos rfl] at hpend he
            rw [cancelRecord_state] at hpend
            exact absurd hpend (by decide)
          · have hkb : (j.id == id0) = false := beq_eq_false_iff_ne.mpr hk
            rw [hkb, if_neg Bool.false_ne_true] at hpend he
            right
            rw [he, startJob_state, hpend]
            rfl
      | completed =>
        have h1 : (cancel_job s id0).1 = s := by rw [cancel_job_eq_some hfind, hstate]
        rw [h1, h] at h'
        left
        rw [(Option.some.inj h').symm]
      | failed =>
        have h1 : (cancel_job s id0).1 = s := by rw [cancel_job_eq_some hfind, hstate]
        rw [h1, h] at h'
        left
        rw [(Option.some.inj h').symm]
      | cancelled =>
        have h1 : (cancel_job s id0).1 = s := by rw [cancel_job_eq_some hfind, hstate]
        rw [h1, h] at h'
        left
        rw [(Option.some.inj h').symm]
  | processExit id0 code pay =>
    have hcl : findJob (applyEvent s (.processExit id0 code pay)) id
        = findJob (finish_job s id0 code pay) id := rfl
    rw [hcl] at h'
    cases hfind : findJob s id0 with
    | none =>
      rw [finish_job_eq_none hfind, h] at h'
      left
      rw [(Option.some.inj h').symm]
    | some j0 =>
      have hid0 : j0.id = id0 := findJob_id hfind
      by_cases hrun : j0.state = JobState.running
      · have hb : (j0.state == JobState.running) = true := beq_iff_eq.mpr hrun
        have h1 : finish_job s id0 code pay
            = dispatch { s with
                jobs := updateJob id0 (finishRecord s.clock code pay) s.jobs } := by
          rw [finish_job_eq_some hfind, hb, if_pos rfl]
        rw [h1] at h'
        have hmid : findJob { s with jobs := updateJob id0 (finishRecord s.clock code pay) s.jobs } id
            = some (if j.id == id0 then finishRecord s.clock code pay j else j) := by
          rw [findJob_update_store s id0 (finishRecord s.clock code pay)
            (fun x => finishRecord_id s.clock code pay x) id, h]
          rfl
        rcases state_rel_dispatch hmid h' with he | ⟨hpend, he⟩
        · by_cases hk : j.id = id0
          · have hkb : (j.id == id0) = true := beq_iff_eq.mpr hk
            rw [hkb, if_pos rfl] at he
            have hjj0 : j = j0 := by
              rw [hjid] at hk
              rw [hk] at h
              rw [h] at hfind
              exact Option.some.inj hfind
            right
            rw [he, finishRecord_state, hjj0, hrun]
            by_cases hcode : code = 0
            · rw [if_pos hcode]; rfl
            · rw [if_neg hcode]; rfl
          · have hkb : (j.id == id0) = false := beq_eq_false_iff_ne.mpr hk
            rw [hkb, if_neg Bool.false_ne_true] at he
            left
            rw [he]
        · by_cases hk : j.id = id0
          · have hkb : (j.id == id0) = true := beq_iff_eq.mpr hk
            rw [hkb, if_pos rfl] at hpend he
            have : ((finishRecord s.clock code pay j).state == JobState.pending) = false :=
              finishRecord_not_pending s.clock code pay j
            rw [hpend] at this
            exact absurd this (by decide)
          · have hkb : (j.id == id0) = false := beq_eq_false_iff_ne.mpr hk
            rw [hkb, if_neg Bool.false_ne_true] at hpend he
            right
            rw [he, startJob_state, hpend]
            rfl
      · have hb : (j0.state == JobState.running) = false := beq_eq_false_iff_ne.mpr hrun
        have h1 : finish_job s id0 code pay = s := by
          rw [finish_job_eq_some hfind, hb, if_neg Bool.false_ne_true]
        rw [h1, h] at h'
        left
        rw [(Option.some.inj h').symm]
  | outputLine id0 line =>
    have hcl : findJob (applyEvent s (.outputLine id0 line)) id
        = findJob (append_output s id0 line) id := rfl
    rw [hcl] at h'
    have h1 : append_output s id0 line
        = { s with jobs := updateJob id0 (fun x => { x with log := x.log ++ [line] }) s.jobs } := rfl
    rw [h1, findJob_update_store s id0 (fun x => { x with log := x.log ++ [line] })
      (fun x => rfl) id, h] at h'
    have hj' : j' = if j.id == id0 then { j with log := j.log ++ [line] } else j :=
      (Option.some.inj h').symm
    left
    by_cases hk : j.id = id0
    · have hkb : (j.id == id0) = true := beq_iff_eq.mpr hk
      rw [hkb, if_pos rfl] at hj'
      rw [hj']
    · have hkb : (j.id == id0) = false := beq_eq_false_iff_ne.mpr hk
      rw [hkb, if_neg Bool.false_ne_true] at hj'
      rw [hj']

theorem dispatch_preserves_some {s2 : JobStore} {id : Nat} {jm : JobRecord}
    (hm : findJob s2 id = some jm) :
    ∃ j', findJob (dispatch s2) id = some j' := by
  rcases findJob_dispatch s2 id with h | ⟨j0, hj0, hp, he⟩
  · exact ⟨jm, by rw [h, hm]⟩
  · exact ⟨startJob s2.clock j0, he⟩

theorem findJob_applyEvent_some (s : JobStore) (e : Event) (id : Nat)
    (j : JobRecord) (h : findJob s id = some j) :
    ∃ j', findJob (applyEvent s e) id = some j' := by
  cases e with
  | submit p a w n =>
    have hcl : findJob (applyEvent s (.submit p a w n)) id
        = findJob (submit_job s p a w n).1 id := rfl
    rw [hcl]
    by_cases hp : p = ""
    · have h1 : (submit_job s p a w n).1 = s := by unfold submit_job; rw [if_pos hp]
      rw [h1]
      exact ⟨j, h⟩
    · have h1 : (submit_job s p a w n).1
          = dispatch { s with
              jobs := s.jobs ++ [newJobRecord s p a w n],
              nextId := s.nextId + 1 } := by
        unfold submit_job; rw [if_neg hp]
      rw [h1]
      exact dispatch_preserves_some (findJob_append_new s _ _ id h)
  | cancel id0 =>
    have hcl : findJob (applyEvent s (.cancel id0)) id = findJob (cancel_job s id0).1 id := rfl
    rw [hcl]
    cases hfind : findJob s id0 with
    | none =>
      rw [cancel_job_eq_none hfind]
      exact ⟨j, h⟩
    | some j0 =>
      cases hstate : j0.state with
      | pending =>
        have h1 : (cancel_job s id0).1
            = { s with jobs := updateJob id0 (cancelRecord s.clock) s.jobs } := by
          rw [cancel_job_eq_some hfind, hstate]
        rw [h1, findJob_update_store s id0 (cancelRecord s.clock) (fun x => rfl) id, h]
        exact ⟨_, rfl⟩
      | running =>
        have h1 : (cancel_job s id0).1
            = dispatch { s with jobs := updateJob id0 (cancelRecord s.clock) s.jobs } := by
          rw [cancel_job_eq_some hfind, hstate]
        rw [h1]
        have hmid : findJob { s with jobs := updateJob id0 (cancelRecord s.clock) s.jobs } id
            = some (if j.id == id0 then cancelRecord s.clock j else j) := by
          rw [findJob_update_store s id0 (cancelRecord s.clock) (fun x => rfl) id, h]
          rfl
        exact dispatch_preserves_some hmid
      | completed =>
        rw [show (cancel_job s id0).1 = s by rw [cancel_job_eq_some hfind, hstate]]
        exact ⟨j, h⟩
      | failed =>
        rw [show (cancel_job s id0).1 = s by rw [cancel_job_eq_some hfind, hstate]]
        exact ⟨j, h⟩
      | cancelled =>
        rw [show (cancel_job s id0).1 = s by rw [cancel_job_eq_some hfind, hstate]]
        exact ⟨j, h⟩
  | processExit id0 code pay =>
    have hcl : findJob (applyEvent s (.processExit id0 code pay)) id
        = findJob (finish_job s id0 code pay) id := rfl
    rw [hcl]
    cases hfind : findJob s id0 with
    | none =>
      rw [finish_job_eq_none hfind]
      exact ⟨j, h⟩
    | some j0 =>
      by_cases hrun : j0.state = JobState.running
      · have hb : (j0.state == JobState.running) = true := beq_iff_eq.mpr hrun
        have h1 : finish_job s id0 code pay
            = dispatch { s with
                jobs := updateJob id0 (finishRecord s.clock code pay) s.jobs } := by
          rw [finish_job_eq_some hfind, hb, if_pos rfl]
        rw [h1]
        have hmid : findJob { s with jobs := updateJob id0 (finishRecord s.clock code pay) s.jobs } id
            = some (if j.id == id0 then finishRecord s.clock code pay j else j) := by
          rw [findJob_update_store s id0 (finishRecord s.clock code pay)
            (fun x => finishRecord_id s.clock code pay x) id, h]
          rfl
        exact dispatch_preserves_some hmid
      · have hb : (j0.state == JobState.running) = false := beq_eq_false_iff_ne.mpr hrun
        rw [show finish_job s id0 code pay = s by
          rw [finish_job_eq_some hfind, hb, if_neg Bool.false_ne_true]]
        exact ⟨j, h⟩
  | outputLine id0 line =>
    have hcl : findJob (applyEvent s (.outputLine id0 line)) id
        = findJob (append_output s id0 line) id := rfl
    rw [hcl]
    have h1 : append_output s id0 line
        = { s with jobs := updateJob id0 (fun x => { x with log := x.log ++ [line] }) s.jobs } := rfl
    rw [h1, findJob_update_store s id0 (fun x => { x with log := x.log ++ [line] })
      (fun x => rfl) id, h]
    exact ⟨_, rfl⟩

theorem legalEdge_terminal_false :
    ∀ a b : JobState, a.isTerminal = true → legalEdge a b = false := by
  intro a b ht
  cases a with
  | pending => exact absurd ht (by decide)
  | running => exact absurd ht (by decide)
  | completed => cases b <;> rfl
  | failed => cases b <;> rfl
  | cancelled => cases b <;> rfl

theorem applyEvents_cons (s : JobStore) (e : Event) (es : List Event) :
    applyEvents s (e :: es) = applyEvents (applyEvent s e) es := rfl

theorem terminal_absorb (s : JobStore) (id : Nat) (j : JobRecord)
    (h : findJob s id = some j) (ht : j.state.isTerminal = true) :
    ∀ (es : List Event) (j' : JobRecord),
      findJob (applyEvents s es) id = some j' → j'.state = j.state := by
  intro es
  induction es generalizing s j with
  | nil =>
    intro j' h'
    have h'2 : findJob s id = some j' := h'
    rw [h] at h'2
    rw [(Option.some.inj h'2).symm]
  | cons e es ih =>
    intro j' h'
    rcases findJob_applyEvent_some s e id j h with ⟨j1, h1⟩
    have hrel := stateStep_applyEvent s e id j j1 h h1
    have hstate1 : j1.state = j.state := by
      rcases hrel with he | he
      · exact he
      · rw [legalEdge_terminal_false j.state j1.state ht] at he
        exact absurd he (by decide)
    have ht1 : j1.state.isTerminal = true := by rw [hstate1]; exact ht
    rw [applyEvents_cons] at h'
    have := ih (applyEvent s e) j1 h1 ht1 j' h'
    rw [this, hstate1]

theorem fillSlots_mem_id (t free : Nat) (l : List JobRecord) (j' : JobRecord)
    (h : j' ∈ fillSlots t free l) : ∃ jr ∈ l, jr.id = j'.id := by
  rcases mem_fillSlots t free l j' h with hmem | ⟨jr, hjr, _, he⟩
  · exact ⟨j', hmem, rfl⟩
  · exact ⟨jr, hjr, by rw [he, startJob_id]⟩

theorem fillSlots_fifo (t : Nat) :
    ∀ (free : Nat) (l : List JobRecord),
      l.Pairwise (fun a b => a.id < b.id) →
      ∀ (id1 id2 : Nat) (j1 j1' j2' : JobRecord),
        l.find? (fun x => x.id == id1) = some j1 → j1.state = JobState.pending →
        (fillSlots t free l).find? (fun x => x.id == id1) = some j1' →
        j1'.state = JobState.running →
        (fillSlots t free l).find? (fun x => x.id == id2) = some j2' →
        j2'.state = JobState.pending →
        id1 < id2 := by
  intro free l
  induction l generalizing free with
  | nil =>
    intro _ id1 id2 j1 j1' j2' hf1 _ _ _ _ _
    simp at hf1
  | cons a rest ih =>
    intro hsorted id1 id2 j1 j1' j2' hf1 hp1 hf1' hr1 hf2' hp2
    have hpw := List.pairwise_cons.mp hsorted
    cases free with
    | zero =>
      rw [fillSlots_zero] at hf1' hf2'
      rw [hf1] at hf1'
      have : j1 = j1' := Option.some.inj hf1'
      rw [← this, hp1] at hr1
      exact absurd hr1 (by decide)
    | succ free =>
      rw [fillSlots_cons_succ] at hf1' hf2'
      by_cases hap : a.state = JobState.pending
      · have hab : (a.state == JobState.pending) = true := beq_iff_eq.mpr hap
        rw [hab, if_pos rfl] at hf1' hf2'
        by_cases hk1 : a.id = id1
        · have hk1b : (a.id == id1) = true := beq_iff_eq.mpr hk1
          have hk1b' : ((startJob t a).id == id1) = true := hk1b
          rw [List.find?_cons, hk1b'] at hf1'
          by_cases hk2 : a.id = id2
          · have hk2b' : ((startJob t a).id == id2) = true := beq_iff_eq.mpr hk2
            rw [List.find?_cons, hk2b'] at hf2'
            have : startJob t a = j2' := Option.some.inj hf2'
            rw [← this, startJob_state] at hp2
            exact absurd hp2 (by decide)
          · have hk2b' : ((startJob t a).id == id2) = false := beq_eq_false_iff_ne.mpr hk2
            rw [List.find?_cons, hk2b'] at hf2'
            have hj2id : j2'.id = id2 := by
              have h3 := List.find?_some hf2'
              exact beq_iff_eq.mp h3
            rcases fillSlots_mem_id t free rest j2' (List.mem_of_find?_eq_some hf2') with
              ⟨jr, hjr, hjrid⟩
            have := hpw.1 jr hjr
            rw [hjrid, hj2id] at this
            rw [← hk1]
            exact this
        · have hk1b : (a.id == id1) = false := beq_eq_false_iff_ne.mpr hk1
          have hk1b' : ((startJob t a).id == id1) = false := hk1b
          rw [List.find?_cons, hk1b] at hf1
          rw [List.find?_cons, hk1b'] at hf1'
          by_cases hk2 : a.id = id2
          · have hk2b' : ((startJob t a).id == id2) = true := beq_iff_eq.mpr hk2
            rw [List.find?_cons, hk2b'] at hf2'
            have : startJob t a = j2' := Option.some.inj hf2'
            rw [← this, startJob_state] at hp2
            exact absurd hp2 (by decide)
          · have hk2b' : ((startJob t a).id == id2) = false := beq_eq_false_iff_ne.mpr hk2
            rw [List.find?_cons, hk2b'] at hf2'
            exact ih free hpw.2 id1 id2 j1 j1' j2' hf1 hp1 hf1' hr1 hf2' hp2
      · have hab : (a.state == JobState.pending) = false := beq_eq_false_iff_ne.mpr hap
        rw [hab, if_neg Bool.false_ne_true] at hf1' hf2'
        by_cases hk1 : a.id = id1
        · have hk1b : (a.id == id1) = true := beq_iff_eq.mpr hk1
          rw [List.find?_cons, hk1b] at hf1
          have : a = j1 := Option.some.inj hf1
          rw [← this] at hp1
          exact absurd hp1 hap
        · have hk1b : (a.id == id1) = false := beq_eq_false_iff_ne.mpr hk1
          rw [List.find?_cons, hk1b] at hf1 hf1'
          by_cases hk2 : a.id = id2
          · have hk2b : (a.id == id2) = true := beq_iff_eq.mpr hk2
            rw [List.find?_cons, hk2b] at hf2'
            have : a = j2' := Option.some.inj hf2'
            rw [← this] at hp2
            exact absurd hp2 hap
          · have hk2b : (a.id == id2) = false := beq_eq_false_iff_ne.mpr hk2
            rw [List.find?_cons, hk2b] at hf2'
            exact ih (free + 1) hpw.2 id1 id2 j1 j1' j2' hf1 hp1 hf1' hr1 hf2' hp2

theorem fifo_applyEvent (s : JobStore) (hInv : StoreInv s) (e : Event)
    (id1 id2 : Nat) (j1 j1' j2' : JobRecord)
    (h1 : findJob s id1 = some j1) (hp1 : j1.state = JobState.pending)
    (h1' : findJob (applyEvent s e) id1 = some j1')
    (hr1 : j1'.state = JobState.running)
    (h2' : findJob (applyEvent s e) id2 = some j2')
    (hp2 : j2'.state = JobState.pending) :
    id1 < id2 := by
  cases e with
  | submit p a w n =>
    have hcl1 : findJob (applyEvent s (.submit p a w n)) id1
        = findJob (submit_job s p a w n).1 id1 := rfl
    have hcl2 : findJob (applyEvent s (.submit p a w n)) id2
        = findJob (submit_job s p a w n).1 id2 := rfl
    rw [hcl1] at h1'
    rw [hcl2] at h2'
    by_cases hp : p = ""
    · have heq : (submit_job s p a w n).1 = s := by unfold submit_job; rw [if_pos hp]
      rw [heq, h1] at h1'
      have : j1 = j1' := Option.some.inj h1'
      rw [← this, hp1] at hr1
      exact absurd hr1 (by decide)
    · have heq : (submit_job s p a w n).1
          = dispatch { s with
              jobs := s.jobs ++ [newJobRecord s p a w n],
              nextId := s.nextId + 1 } := by
        unfold submit_job; rw [if_neg hp]
      rw [heq] at h1' h2'
      have hsorted2 : (s.jobs ++ [newJobRecord s p a w n]).Pairwise
          (fun a b => a.id < b.id) := by
        rw [List.pairwise_append]
        refine ⟨hInv.sorted, by simp, ?_⟩
        intro x hx b hb
        rcases List.mem_singleton.mp hb with rfl
        exact hInv.idLt x hx
      have hmid1 : (s.jobs ++ [newJobRecord s p a w n]).find? (fun x => x.id == id1)
          = some j1 := by
        have h3 : s.jobs.find? (fun x => x.id == id1) = some j1 := h1
        rw [List.find?_append, h3]
        rfl
      have ha1 : (fillSlots s.clock
          (s.capacity - runningCount (s.jobs ++ [newJobRecord s p a w n]))
          (s.jobs ++ [newJobRecord s p a w n])).find? (fun x => x.id == id1)
          = some j1' := h1'
      have ha2 : (fillSlots s.clock
          (s.capacity - runningCount (s.jobs ++ [newJobRecord s p a w n]))
          (s.jobs ++ [newJobRecord s p a w n])).find? (fun x => x.id == id2)
          = some j2' := h2'
      exact fillSlots_fifo s.clock _ _ hsorted2 id1 id2 j1 j1' j2' hmid1 hp1 ha1 hr1 ha2 hp2
  | cancel id0 =>
    have hcl1 : findJob (applyEvent s (.cancel id0)) id1
        = findJob (cancel_job s id0).1 id1 := rfl
    have hcl2 : findJob (applyEvent s (.cancel id0)) id2
        = findJob (cancel_job s id0).1 id2 := rfl
    rw [hcl1] at h1'
    rw [hcl2] at h2'
    cases hfind : findJob s id0 with
    | none =>
      rw [cancel_job_eq_none hfind] at h1'
      have h1'2 : findJob s id1 = some j1' := h1'
      rw [h1] at h1'2
      have : j1 = j1' := Option.some.inj h1'2
      rw [← this, hp1] at hr1
      exact absurd hr1 (by decide)
    | some j0 =>
      cases hstate : j0.state with
      | pending =>
        have heq : (cancel_job s id0).1
            = { s with jobs := updateJob id0 (cancelRecord s.clock) s.jobs } := by
          rw [cancel_job_eq_some hfind, hstate]
        rw [heq, findJob_update_store s id0 (cancelRecord s.clock) (fun x => rfl) id1, h1] at h1'
        have hj1' : j1' = if j1.id == id0 then cancelRecord s.clock j1 else j1 :=
          (Option.some.inj h1').symm
        by_cases hk : j1.id = id0
        · have hkb : (j1.id == id0) = true := beq_iff_eq.mpr hk
          rw [hkb, if_pos rfl] at hj1'
          rw [hj1', cancelRecord_state] at hr1
          exact absurd hr1 (by decide)
        · have hkb : (j1.id == id0) = false := beq_eq_false_iff_ne.mpr hk
          rw [hkb, if_neg Bool.false_ne_true] at hj1'
          rw [hj1', hp1] at hr1
          exact absurd hr1 (by decide)
      | running =>
        have heq : (cancel_job s id0).1
            = dispatch { s with jobs := updateJob id0 (cancelRecord s.clock) s.jobs } := by
          rw [cancel_job_eq_some hfind, hstate]
        rw [heq] at h1' h2'
        have hk : j1.id ≠ id0 := by
          intro hk
          have hj1id : j1.id = id1 := findJob_id h1
          rw [hj1id] at hk
          rw [hk, hfind] at h1
          have : j0 = j1 := Option.some.inj h1
          rw [← this, hstate] at hp1
          exact absurd hp1 (by decide)
        have hkb : (j1.id == id0) = false := beq_eq_false_iff_ne.mpr hk
        have hmid1 : (updateJob id0 (cancelRecord s.clock) s.jobs).find?
            (fun x => x.id == id1) = some j1 := by
          have h3 := findJob_update_store s id0 (cancelRecord s.clock) (fun x => rfl) id1
          rw [h1] at h3
          have h4 : findJob { s with jobs := updateJob id0 (cancelRecord s.clock) s.jobs } id1
              = some (if j1.id == id0 then cancelRecord s.clock j1 else j1) := h3
          rw [hkb, if_neg Bool.false_ne_true] at h4
          exact h4
        have hsorted2 := pairwise_of_map_id_eq
          (updateJob_map_id id0 (cancelRecord s.clock) (fun x => rfl) s.jobs) hInv.sorted
        have ha1 : (fillSlots s.clock
            (s.capacity - runningCount (updateJob id0 (cancelRecord s.clock) s.jobs))
            (updateJob id0 (cancelRecord s.clock) s.jobs)).find? (fun x => x.id == id1)
            = some j1' := h1'
        have ha2 : (fillSlots s.clock
            (s.capacity - runningCount (updateJob id0 (cancelRecord s.clock) s.jobs))
            (updateJob id0 (cancelRecord s.clock) s.jobs)).find? (fun x => x.id == id2)
            = some j2' := h2'
        exact fillSlots_fifo s.clock _ _ hsorted2 id1 id2 j1 j1' j2' hmid1 hp1 ha1 hr1 ha2 hp2
      | completed =>
        rw [show (cancel_job s id0).1 = s by rw [cancel_job_eq_some hfind, hstate], h1] at h1'
        have : j1 = j1' := Option.some.inj h1'
        rw [← this, hp1] at hr1
        exact absurd hr1 (by decide)
      | failed =>
        rw [show (cancel_job s id0).1 = s by rw [cancel_job_eq_some hfind, hstate], h1] at h1'
        have : j1 = j1' := Option.some.inj h1'
        rw [← this, hp1] at hr1
        exact absurd hr1 (by decide)
      | cancelled =>
        rw [show (cancel_job s id0).1 = s by rw [cancel_job_eq_some hfind, hstate], h1] at h1'
        have : j1 = j1' := Option.some.inj h1'
        rw [← this, hp1] at hr1
        exact absurd hr1 (by decide)
  | processExit id0 code pay =>
    have hcl1 : findJob (applyEvent s (.processExit id0 code pay)) id1
        = findJob (finish_job s id0 code pay) id1 := rfl
    have hcl2 : findJob (applyEvent s (.processExit id0 code pay)) id2
        = findJob (finish_job s id0 code pay) id2 := rfl
    rw [hcl1] at h1'
    rw [hcl2] at h2'
    cases hfind : findJob s id0 with
    | none =>
      rw [finish_job_eq_none hfind, h1] at h1'
      have : j1 = j1' := Option.some.inj h1'
      rw [← this, hp1] at hr1
      exact absurd hr1 (by decide)
    | some j0 =>
      by_cases hrun : j0.state = JobState.running
      · have hb : (j0.state == JobState.running) = true := beq_iff_eq.mpr hrun
        have heq : finish_job s id0 code pay
            = dispatch { s with
                jobs := updateJob id0 (finishRecord s.clock code pay) s.jobs } := by
          rw [finish_job_eq_some hfind, hb, if_pos rfl]
        rw [heq] at h1' h2'
        have hk : j1.id ≠ id0 := by
          intro hk
          have hj1id : j1.id = id1 := findJob_id h1
          rw [hj1id] at hk
          rw [hk, hfind] at h1
          have : j0 = j1 := Option.some.inj h1
          rw [← this, hrun] at hp1
          exact absurd hp1 (by decide)
        have hkb : (j1.id == id0) = false := beq_eq_false_iff_ne.mpr hk
        have hmid1 : (updateJob id0 (finishRecord s.clock code pay) s.jobs).find?
            (fun x => x.id == id1) = some j1 := by
          have h3 := findJob_update_store s id0 (finishRecord s.clock code pay)
            (fun x => finishRecord_id s.clock code pay x) id1
          rw [h1] at h3
          have h4 : findJob { s with jobs := updateJob id0 (finishRecord s.clock code pay) s.jobs } id1
              = some (if j1.id == id0 then finishRecord s.clock code pay j1 else j1) := h3
          rw [hkb, if_neg Bool.false_ne_true] at h4
          exact h4
        have hsorted2 := pairwise_of_map_id_eq
          (updateJob_map_id id0 (finishRecord s.clock code pay)
            (fun x => finishRecord_id s.clock code pay x) s.jobs) hInv.sorted
        have ha1 : (fillSlots s.clock
            (s.capacity - runningCount (updateJob id0 (finishRecord s.clock code pay) s.jobs))
            (updateJob id0 (finishRecord s.clock code pay) s.jobs)).find?
            (fun x => x.id == id1) = some j1' := h1'
        have ha2 : (fillSlots s.clock
            (s.capacity - runningCount (updateJob id0 (finishRecord s.clock code pay) s.jobs))
            (updateJob id0 (finishRecord s.clock code pay) s.jobs)).find?
            (fun x => x.id == id2) = some j2' := h2'
        exact fillSlots_fifo s.clock _ _ hsorted2 id1 id2 j1 j1' j2' hmid1 hp1 ha1 hr1 ha2 hp2
      · have hb : (j0.state == JobState.running) = false := beq_eq_false_iff_ne.mpr hrun
        rw [show finish_job s id0 code pay = s by
          rw [finish_job_eq_some hfind, hb, if_neg Bool.false_ne_true], h1] at h1'
        have : j1 = j1' := Option.some.inj h1'
        rw [← this, hp1] at hr1
        exact absurd hr1 (by decide)
  | outputLine id0 line =>
    have hcl1 : findJob (applyEvent s (.outputLine id0 line)) id1
        = findJob (append_output s id0 line) id1 := rfl
    rw [hcl1] at h1'
    have heq : append_output s id0 line
        = { s with jobs := updateJob id0 (fun x => { x with log := x.log ++ [line] }) s.jobs } := rfl
    rw [heq, findJob_update_store s id0 (fun x => { x with log := x.log ++ [line] })
      (fun x => rfl) id1, h1] at h1'
    have hj1' : j1' = if j1.id == id0 then { j1 with log := j1.log ++ [line] } else j1 :=
      (Option.some.inj h1').symm
    by_cases hk : j1.id = id0
    · have hkb : (j1.id == id0) = true := beq_iff_eq.mpr hk
      rw [hkb, if_pos rfl] at hj1'
      rw [hj1'] at hr1
      have : j1.state = JobState.running := hr1
      rw [hp1] at this
      exact absurd this (by decide)
    · have hkb : (j1.id == id0) = false := beq_eq_false_iff_ne.mpr hk
      rw [hkb, if_neg Bool.false_ne_true] at hj1'
      rw [hj1', hp1] at hr1
      exact absurd hr1 (by decide)

/-! ## LogBuffer tail-read facts -/

theorem readTail_zero (lines : List String) : readTail 0 lines = lines := rfl

theorem readTail_pos (n : Nat) (lines : List String) (h : 0 < n) :
    readTail n lines = lines.drop (lines.length - n) := by
  unfold readTail
  rw [if_neg (by omega)]

theorem readTail_length (n : Nat) (lines : List String) (h : 0 < n) :
    (readTail n lines).length = min n lines.length := by
  rw [readTail_pos n lines h, List.length_drop]
  omega

theorem readTail_is_suffix (n : Nat) (lines : List String) (h : 0 < n) :
    lines.take (lines.length - n) ++ readTail n lines = lines := by
  rw [readTail_pos n lines h]
  exact List.take_append_drop _ lines

theorem readTail_nil (n : Nat) : readTail n [] = [] := by
  unfold readTail
  by_cases h : n = 0
  · rw [if_pos h]
  · rw [if_neg h]
    exact List.drop_nil

theorem get_job_log_eq (s : JobStore) (id : Nat) (j : JobRecord) (n : Nat)
    (h : findJob s id = some j) :
    get_job_log s id n = LogOutcome.ok (readTail n j.log) j.log.length := by
  unfold get_job_log
  rw [h]

/-! ## Example stores used to instantiate the theorems below -/

def exStore1 : JobStore := applyEvent (initStore 1) (Event.submit "prog" ["a"] "wd" "job1")

def exStore2 : JobStore := applyEvent exStore1 (Event.processExit 0 0 "out.pdb")

def exStore4 : JobStore :=
  applyEvent (applyEvent exStore1 (Event.outputLine 0 "line1")) (Event.outputLine 0 "line2")

def exStoreB : JobStore :=
  applyEvent (applyEvent (initStore 1) (Event.submit "p1" [] "w" "a"))
    (Event.submit "p2" [] "w" "b")

theorem reachable_exStore1 : Reachable exStore1 :=
  Reachable.step _ (Reachable.init 1)

theorem reachable_exStore2 : Reachable exStore2 :=
  Reachable.step _ reachable_exStore1

theorem reachable_exStoreB : Reachable exStoreB :=
  Reachable.step _ (Reachable.step _ (Reachable.init 1))

/-- Record of the completed example job in `exStore2`. -/
def exJob2 : JobRecord :=
  { id := 0, name := "job1", program := "prog", arguments := ["a"],
    workingDirectory := "wd", state := .completed, submittedAt := 0,
    startedAt := some 0, finishedAt := some 1, exitCode := some 0,
    result := some "out.pdb", errorMessage := none, log := [] }

/-- Record of the running example job with two log lines in `exStore4`. -/
def exJob4 : JobRecord :=
  { id := 0, name := "job1", program := "prog", arguments := ["a"],
    workingDirectory := "wd", state := .running, submittedAt := 0,
    startedAt := some 0, finishedAt := none, exitCode := none,
    result := none, errorMessage := none, log := ["line1", "line2"] }

/-! ## Claim theorems -/

/-- C1: for every submitted job, the state changes only along the edges
pending to running, pending to cancelled, running to completed, running to
failed, running to cancelled (`legalEdge`); no sequence of control events
(the queries are pure and cannot mutate the store) ever produces a transition
out of a terminal state or moves a job backward. -/
theorem drfold_c1_state_machine (s : JobStore) (id : Nat) (j : JobRecord)
    (h : findJob s id = some j) :
    (∀ (e : Event) (j' : JobRecord), findJob (applyEvent s e) id = some j' →
        j'.state = j.state ∨ legalEdge j.state j'.state = true)
    ∧ (j.state.isTerminal = true →
        ∀ (es : List Event) (j' : JobRecord),
          findJob (applyEvents s es) id = some j' → j'.state = j.state) :=
  ⟨fun e j' h' => stateStep_applyEvent s e id j j' h h',
   fun ht es j' h' => terminal_absorb s id j h ht es j' h'⟩

/-- Witness for C1 at a concrete completed job: cancelling it changes
nothing, in accordance with the state machine. -/
theorem drfold_c1_state_machine_witness :
    findJob exStore2 0 = some exJob2 ∧
    findJob (applyEvent exStore2 (Event.cancel 0)) 0 = some exJob2 ∧
    (exJob2.state = exJob2.state ∨ legalEdge exJob2.state exJob2.state = true) :=
  ⟨by decide, by decide,
   (drfold_c1_state_machine exStore2 0 exJob2 (by decide)).1 (Event.cancel 0) exJob2 (by decide)⟩

/-- C2: `submit_job` with a non-empty program path reports a fresh,
never-previously-assigned identifier, appends exactly one new record (created
in `pending` state) and leaves all other records untouched; with an empty
program path it reports a validation error and the store is unchanged. -/
theorem drfold_c2_submit (s : JobStore) (hreach : Reachable s)
    (program : String) (arguments : List String) (wd name : String) :
    (program ≠ "" →
      (submit_job s program arguments wd name).2 = SubmitOutcome.ok s.nextId
      ∧ (∀ j ∈ s.jobs, j.id ≠ s.nextId)
      ∧ (newJobRecord s program arguments wd name).state = JobState.pending
      ∧ ((submit_job s program arguments wd name).1.jobs.map (fun j => j.id))
          = s.jobs.map (fun j => j.id) ++ [s.nextId]
      ∧ (submit_job s program arguments wd name).1.nextId = s.nextId + 1)
    ∧ (program = "" →
        submit_job s program arguments wd name
          = (s, SubmitOutcome.validationError "empty program path")) := by
  have hInv := storeInv_reachable hreach
  constructor
  · intro hp
    have heq : submit_job s program arguments wd name
        = (dispatch { s with
            jobs := s.jobs ++ [newJobRecord s program arguments wd name],
            nextId := s.nextId + 1 },
           SubmitOutcome.ok s.nextId) := by
      unfold submit_job; rw [if_neg hp]
    refine ⟨by rw [heq], ?_, rfl, ?_, by rw [heq]; rfl⟩
    · intro j hj
      have := hInv.idLt j hj
      omega
    · rw [heq]
      have hjobs : (dispatch { s with
          jobs := s.jobs ++ [newJobRecord s program arguments wd name],
          nextId := s.nextId + 1 }).jobs
          = fillSlots s.clock
            (s.capacity - runningCount (s.jobs ++ [newJobRecord s program arguments wd name]))
            (s.jobs ++ [newJobRecord s program arguments wd name]) := rfl
      rw [hjobs, fillSlots_map_id, List.map_append]
      rfl
  · intro hp
    unfold submit_job
    rw [if_pos hp]

/-- Witness for C2 at a fresh store of capacity 2. -/
theorem drfold_c2_submit_witness :
    Reachable (initStore 2) ∧ ("prog" : String) ≠ "" ∧
    (submit_job (initStore 2) "prog" ["x"] "wd" "n").2 = SubmitOutcome.ok 0 :=
  ⟨Reachable.init 2, by decide,
   ((drfold_c2_submit (initStore 2) (Reachable.init 2) "prog" ["x"] "wd" "n").1
     (by decide)).1⟩

/-- C3: for every known job, `get_job_result` returns the not-ready indicator
exactly when the state is not `completed` and the stored payload when it is;
moreover a result payload is present in the record if and only if the state is
`completed`. -/
theorem drfold_c3_result (s : JobStore) (hreach : Reachable s) (id : Nat)
    (j : JobRecord) (h : findJob s id = some j) :
    (j.state ≠ JobState.completed → get_job_result s id = ResultOutcome.notReady)
    ∧ (j.state = JobState.completed →
        ∃ p, j.result = some p ∧ get_job_result s id = ResultOutcome.payload p)
    ∧ (j.result.isSome = true ↔ j.state = JobState.completed) := by
  have hInv := storeInv_reachable hreach
  have hmem := findJob_mem h
  have hres := hInv.resIff j hmem
  have hglq : get_job_result s id
      = if j.state == JobState.completed then
          (match j.result with
            | some p => ResultOutcome.payload p
            | none => ResultOutcome.notReady)
        else ResultOutcome.notReady := by
    unfold get_job_result
    rw [h]
  refine ⟨?_, ?_, hres⟩
  · intro hne
    rw [hglq]
    have hb : (j.state == JobState.completed) = false := beq_eq_false_iff_ne.mpr hne
    rw [hb, if_neg Bool.false_ne_true]
  · intro hc
    have hsome : j.result.isSome = true := hres.mpr hc
    rcases Option.isSome_iff_exists.mp hsome with ⟨p, hp⟩
    refine ⟨p, hp, ?_⟩
    rw [hglq]
    have hb : (j.state == JobState.completed) = true := beq_iff_eq.mpr hc
    rw [hb, if_pos rfl, hp]

/-- Witness for C3: the completed example job yields its payload. -/
theorem drfold_c3_result_witness :
    Reachable exStore2 ∧ findJob exStore2 0 = some exJob2 ∧
    ∃ p, exJob2.result = some p ∧ get_job_result exStore2 0 = ResultOutcome.payload p :=
  ⟨reachable_exStore2, by decide,
   (drfold_c3_result exStore2 reachable_exStore2 0 exJob2 (by decide)).2.1 (by decide)⟩

/-- C4: for every known job and every `n > 0`, `get_job_log` returns at most
`n` lines and they are exactly the most recently appended `n` lines, in
append order (a suffix of the log of length `min n total`); `n = 0` returns
the full log; a job with no output yields the empty sequence. -/
theorem drfold_c4_log (s : JobStore) (id : Nat) (j : JobRecord) (n : Nat)
    (h : findJob s id = some j) :
    get_job_log s id n = LogOutcome.ok (readTail n j.log) j.log.length
    ∧ (0 < n → (readTail n j.log).length = min n j.log.length
        ∧ j.log.take (j.log.length - n) ++ readTail n j.log = j.log)
    ∧ (n = 0 → readTail n j.log = j.log)
    ∧ (j.log = [] → readTail n j.log = []) := by
  refine ⟨get_job_log_eq s id j n h, ?_, ?_, ?_⟩
  · intro hn
    exact ⟨readTail_length n j.log hn, readTail_is_suffix n j.log hn⟩
  · intro hz
    rw [hz]
    exact readTail_zero j.log
  · intro hnil
    rw [hnil]
    exact readTail_nil n

/-- Witness for C4: tail of size 1 on the two-line example log. -/
theorem drfold_c4_log_witness :
    findJob exStore4 0 = some exJob4 ∧
    get_job_log exStore4 0 1 = LogOutcome.ok (readTail 1 exJob4.log) exJob4.log.length ∧
    get_job_log exStore4 0 1 = LogOutcome.ok ["line2"] 2 :=
  ⟨by decide, (drfold_c4_log exStore4 0 exJob4 1 (by decide)).1, by decide⟩

/-- C5: in every reachable store, at most `C` jobs are running; exactly `C`
are running while more than `C` submitted jobs are non-terminal; every
non-terminal job is either pending or running; records are stored in
submission order with strictly increasing identifiers; and admission is
strictly first-in-first-out: whenever one step turns a pending job into a
running one, every job still pending afterwards was submitted later. -/
theorem drfold_c5_capacity (s : JobStore) (hreach : Reachable s) :
    runningCount s.jobs ≤ s.capacity
    ∧ (s.capacity < nonTerminalCount s.jobs → runningCount s.jobs = s.capacity)
    ∧ (∀ j ∈ s.jobs, j.state.isTerminal = false →
        j.state = JobState.pending ∨ j.state = JobState.running)
    ∧ s.jobs.Pairwise (fun a b => a.id < b.id)
    ∧ (∀ (e : Event) (id1 id2 : Nat) (j1 j1' j2' : JobRecord),
        findJob s id1 = some j1 → j1.state = JobState.pending →
        findJob (applyEvent s e) id1 = some j1' → j1'.state = JobState.running →
        findJob (applyEvent s e) id2 = some j2' → j2'.state = JobState.pending →
        id1 < id2) := by
  have hInv := storeInv_reachable hreach
  refine ⟨hInv.runLe, ?_, ?_, hInv.sorted, ?_⟩
  · intro hgt
    have hnt := nonTerminalCount_eq s.jobs
    have hrle := hInv.runLe
    have hp : 0 < pendingCount s.jobs := by omega
    exact hInv.pendFull hp
  · intro j _ hterm
    cases hjs : j.state with
    | pending => exact Or.inl rfl
    | running => exact Or.inr rfl
    | completed => rw [hjs] at hterm; exact absurd hterm (by decide)
    | failed => rw [hjs] at hterm; exact absurd hterm (by decide)
    | cancelled => rw [hjs] at hterm; exact absurd hterm (by decide)
  · intro e id1 id2 j1 j1' j2' a b c d f g
    exact fifo_applyEvent s hInv e id1 id2 j1 j1' j2' a b c d f g

/-- Witness for C5: capacity 1 with two submissions gives one running job and
full occupancy while a job is queued. -/
theorem drfold_c5_capacity_witness :
    Reachable exStoreB ∧ exStoreB.capacity < nonTerminalCount exStoreB.jobs ∧
    runningCount exStoreB.jobs = exStoreB.capacity :=
  ⟨reachable_exStoreB, by decide,
   (drfold_c5_capacity exStoreB reachable_exStoreB).2.1 (by decide)⟩

/-- C6: cancelling a job already in a terminal state leaves the whole store
(and hence the JobRecord) unchanged and returns the invalid-state-transition
report to the caller; `cancel_job` is a total function, so the caller never
crashes. -/
theorem drfold_c6_cancel_terminal (s : JobStore) (id : Nat) (j : JobRecord)
    (h : findJob s id = some j) (ht : j.state.isTerminal = true) :
    cancel_job s id = (s, CancelOutcome.invalidTransition) := by
  rw [cancel_job_eq_some h]
  cases hjs : j.state with
  | pending => rw [hjs] at ht; exact absurd ht (by decide)
  | running => rw [hjs] at ht; exact absurd ht (by decide)
  | completed => rfl
  | failed => rfl
  | cancelled => rfl

/-- Witness for C6 at the completed example job. -/
theorem drfold_c6_cancel_terminal_witness :
    findJob exStore2 0 = some exJob2 ∧ exJob2.state.isTerminal = true ∧
    cancel_job exStore2 0 = (exStore2, CancelOutcome.invalidTransition) :=
  ⟨by decide, by decide,
   drfold_c6_cancel_terminal exStore2 0 exJob2 (by decide) (by decide)⟩

/-- C7: every external program launch modelled from the source is an explicit
argument vector with an explicit working directory — the three script call
sites build a list for `subprocess.run` with `cwd=` and no `shell=True`, and
the spec-modelled ProcessRunner start passes `program :: arguments` — and none
of them is a shell-interpreted command string. -/
theorem drfold_c7_argument_vector
    (pythonExe dlmain device inputFile outputBase mdir repoPath scriptPath
      modelPath program wd : String) (arguments : List String) :
    (basicPredictionSpawn pythonExe dlmain device inputFile outputBase mdir repoPath).command
        = SpawnCommand.argumentVector [pythonExe, dlmain, device, inputFile, outputBase, mdir]
    ∧ (basicPredictionSpawn pythonExe dlmain device inputFile outputBase mdir repoPath).cwd
        = repoPath
    ∧ (ensembleModelSpawn pythonExe dlmain device inputFile outputBase mdir repoPath).command
        = SpawnCommand.argumentVector [pythonExe, dlmain, device, inputFile, outputBase, mdir]
    ∧ (ensembleModelSpawn pythonExe dlmain device inputFile outputBase mdir repoPath).cwd
        = repoPath
    ∧ (modelInferenceSpawn pythonExe scriptPath device inputFile outputBase modelPath repoPath).command
        = SpawnCommand.argumentVector [pythonExe, scriptPath, device, inputFile, outputBase, modelPath]
    ∧ (modelInferenceSpawn pythonExe scriptPath device inputFile outputBase modelPath repoPath).cwd
        = repoPath
    ∧ (processRunnerStart program arguments wd).command
        = SpawnCommand.argumentVector (program :: arguments)
    ∧ (processRunnerStart program arguments wd).cwd = wd
    ∧ (∀ line, (basicPredictionSpawn pythonExe dlmain device inputFile outputBase mdir repoPath).command
        ≠ SpawnCommand.shellLine line)
    ∧ (∀ line, (ensembleModelSpawn pythonExe dlmain device inputFile outputBase mdir repoPath).command
        ≠ SpawnCommand.shellLine line)
    ∧ (∀ line, (modelInferenceSpawn pythonExe scriptPath device inputFile outputBase modelPath repoPath).command
        ≠ SpawnCommand.shellLine line)
    ∧ (∀ line, (processRunnerStart program arguments wd).command
        ≠ SpawnCommand.shellLine line) := by
  refine ⟨rfl, rfl, rfl, rfl, rfl, rfl, rfl, rfl, ?_, ?_, ?_, ?_⟩ <;>
    intro line h <;> exact SpawnCommand.noConfusion h

/-- C8: in every reachable store an identifier is known exactly when it is
below the allocator (equivalently, was returned by some successful submit);
`get_job_status` fails with JobNotFound on every unknown identifier — in
particular every identifier never handed out — and returns the state and
timestamps for every known one. -/
theorem drfold_c8_status (s : JobStore) (hreach : Reachable s) (id : Nat) :
    ((∃ j ∈ s.jobs, j.id = id) ↔ id < s.nextId)
    ∧ (findJob s id = none → get_job_status s id = StatusOutcome.jobNotFound)
    ∧ (∀ j, findJob s id = some j →
        get_job_status s id
          = StatusOutcome.ok ⟨j.state, j.submittedAt, j.startedAt, j.finishedAt, j.exitCode⟩)
    ∧ (s.nextId ≤ id → get_job_status s id = StatusOutcome.jobNotFound) := by
  have hInv := storeInv_reachable hreach
  refine ⟨⟨?_, ?_⟩, ?_, ?_, ?_⟩
  · rintro ⟨j, hj, he⟩
    exact he ▸ hInv.idLt j hj
  · intro hlt
    exact hInv.idCover id hlt
  · intro hn
    unfold get_job_status
    rw [hn]
  · intro j hj
    unfold get_job_status
    rw [hj]
  · intro hge
    have hnone : findJob s id = none := by
      unfold findJob
      rw [List.find?_eq_none]
      intro x hx hpx
      have hxe : x.id = id := beq_iff_eq.mp hpx
      have := hInv.idLt x hx
      omega
    unfold get_job_status
    rw [hnone]

/-- Witness for C8: identifier 5 was never assigned in `exStore2`. -/
theorem drfold_c8_status_witness :
    Reachable exStore2 ∧ exStore2.nextId ≤ 5 ∧
    get_job_status exStore2 5 = StatusOutcome.jobNotFound :=
  ⟨reachable_exStore2, by decide,
   (drfold_c8_status exStore2 reachable_exStore2 5).2.2.2 (by decide)⟩

/-- C9: `submit_batch_rna_prediction` submits exactly one job whose input
argument is the first file of a non-empty list — the remaining files only
influence the count in the default job name, never the submitted input — and
returns the error dictionary without submitting anything for an empty list. -/
theorem drfold_c9_batch_first_only (scriptsDir : String) (output_dir : Option String)
    (model_config : String) (job_name : Option String) :
    submit_batch_rna_prediction scriptsDir [] output_dir model_config job_name
        = BatchSubmitAction.errorNoInput
    ∧ ∀ (f : String) (rest : List String),
        submit_batch_rna_prediction scriptsDir (f :: rest) output_dir model_config job_name
          = BatchSubmitAction.submitCall (scriptsDir ++ "/basic_prediction.py") f
              output_dir model_config
              (pyOrDefault job_name ("batch_" ++ toString (rest.length + 1) ++ "_sequences")) :=
  ⟨rfl, fun _ _ => rfl⟩

theorem contains_standard_eq (x : Char) :
    (ValidationLib.validNucs false).contains x
      = (['A', 'U', 'G', 'C', 'U'] : List Char).contains x := by
  have h1 : ValidationLib.validNucs false = ['A', 'U', 'G', 'C'] := rfl
  rw [h1]
  by_cases hU : x = 'U'
  · subst hU
    decide
  · simp [List.contains_cons, hU]

/-- C10 counterexample: on the empty string the library validator returns
false (explicit emptiness check) while the inlined validator returns true
(vacuous `all`), so the two do not compute the same boolean on every input. -/
theorem drfold_c10_validators_differ :
    ValidationLib.validate_rna_sequence [] false
      ≠ BasicPredictionScript.validate_rna_sequence [] := by
  decide

/-- C10 amended: the library validator (with `allow_ambiguous = False`) and
the inlined validator of `scripts/basic_prediction.py` agree on every
non-empty input without leading or trailing whitespace (stated on the
uppercased sequence, which `pyStrip` then leaves unchanged); they differ on
the empty string — library false, inlined true — and on whitespace-padded
strings, which only the library strips. -/
theorem drfold_c10_validators_agree_nonempty (s : List Char) (hne : s ≠ [])
    (hstrip : pyStrip (s.map Char.toUpper) = s.map Char.toUpper) :
    ValidationLib.validate_rna_sequence s false
      = BasicPredictionScript.validate_rna_sequence s := by
  unfold ValidationLib.validate_rna_sequence BasicPredictionScript.validate_rna_sequence
  rw [if_neg hne, hstrip, List.all_map]
  have hfun : ((fun c => (ValidationLib.validNucs false).contains c) ∘ Char.toUpper)
      = fun c : Char => (['A', 'U', 'G', 'C', 'U'] : List Char).contains c.toUpper := by
    funext c
    simp only [Function.comp_apply]
    exact contains_standard_eq c.toUpper
  rw [hfun]

/-- Witness for the amended C10 on the concrete sequence "auG". -/
theorem drfold_c10_validators_agree_nonempty_witness :
    (['a', 'u', 'G'] : List Char) ≠ [] ∧
    pyStrip ((['a', 'u', 'G'] : List Char).map Char.toUpper)
      = (['a', 'u', 'G'] : List Char).map Char.toUpper ∧
    ValidationLib.validate_rna_sequence ['a', 'u', 'G'] false
      = BasicPredictionScript.validate_rna_sequence ['a', 'u', 'G'] :=
  ⟨by decide, by decide,
   drfold_c10_validators_agree_nonempty ['a', 'u', 'G'] (by decide) (by decide)⟩
